import Mathlib

/-!
Shallow embedding of the markdown syntax highlighter in
`src/markdownhighlighter.cpp` (QPlainTextEdit markdown highlighter).

Lines of text are modelled as `List Char`; a block's per-character formats
(the result of `QSyntaxHighlighter::setFormat`) as a `List QTextCharFormat`
of the same length; block states as `Int` (Qt block states are plain ints,
`-1` when unset).  Regular-expression rules are embedded via a small
backtracking matcher over an explicit pattern AST; each pattern below is a
literal transcription of the `QRegularExpression` string in the source.
-/

set_option maxRecDepth 10000

/-- Colors used by the highlighter.  Qt named colors are spelled out as
their rgb values. -/
structure QColor where
  r : Nat
  g : Nat
  b : Nat
deriving DecidableEq, Repr

def qDarkGray : QColor := ⟨128, 128, 128⟩
def qGray : QColor := ⟨160, 160, 164⟩
def qLightGray : QColor := ⟨192, 192, 192⟩
def qDarkRed : QColor := ⟨128, 0, 0⟩
def qDarkGreen : QColor := ⟨0, 128, 0⟩
def qDarkYellow : QColor := ⟨128, 128, 0⟩
def qDarkBlue : QColor := ⟨0, 0, 128⟩
def qCyan : QColor := ⟨0, 255, 255⟩
def qMagenta : QColor := ⟨255, 0, 255⟩

/-- The fields of `QTextCharFormat` that the highlighter touches.
`fontPointSize` is `0` when never set (as in Qt).  `isFixedFont` records a
`setFont(QFontDatabase::systemFont(FixedFont))` call. -/
structure QTextCharFormat where
  fontPointSize : Rat := 0
  foreground : Option QColor := none
  background : Option QColor := none
  fontWeight : Option Nat := none
  fontItalic : Option Bool := none
  fontUnderline : Option Bool := none
  isFixedFont : Bool := false
deriving DecidableEq, Repr

instance : Inhabited QTextCharFormat := ⟨{}⟩

/-- Host-supplied font data: the default font size given to
`initTextFormats` and the point size of the system fixed font used for
code blocks (both external to the highlighter). -/
structure Config where
  defaultFontSize : Rat := 12
  fixedFontSize : Rat := 10
  fullyHighlightedBlockQuote : Bool := false
deriving DecidableEq, Repr

/-! Modelled from the spec: the `HighlighterState` enum lives in the header
(not part of the sources here).  The spec pins down what the .cpp relies
on: `NoState` is the unset Qt block state `-1`, `H1..H6` are consecutive,
the internal end-states sit apart from the visual ones, and categories at
or above the reserved threshold `200` denote embedded-language code blocks
(`CodeCpp`, then `CodeJs`). -/

namespace HighlighterState

def NoState : Int := -1
def Link : Int := 0
def Image : Int := 1
def CodeBlock : Int := 2
def Italic : Int := 3
def Bold : Int := 4
def List : Int := 5
def Comment : Int := 6
def H1 : Int := 7
def H2 : Int := 8
def H3 : Int := 9
def H4 : Int := 10
def H5 : Int := 11
def H6 : Int := 12
def BlockQuote : Int := 13
def HorizontalRuler : Int := 14
def Table : Int := 15
def InlineCodeBlock : Int := 16
def MaskedSyntax : Int := 17
def TrailingSpace : Int := 18
def FrontmatterBlock : Int := 19
def CodeBlockEnd : Int := 100
def HeadlineEnd : Int := 101
def FrontmatterBlockEnd : Int := 102
def CodeCpp : Int := 200
def CodeJs : Int := 201

end HighlighterState

/-! ### QString-style helpers on `List Char` -/

/-- `QString::startsWith`. -/
def qStarts : List Char → List Char → Bool
  | [], _ => true
  | _ :: _, [] => false
  | p :: ps, c :: cs => p == c && qStarts ps cs

/-- `QString::endsWith`. -/
def qEnds (pat t : List Char) : Bool := qStarts pat.reverse t.reverse

/-- Helper for `QString::indexOf`: first index (counting from `i`) where
`pat` occurs, or `-1`. -/
def indexOfSubAux (pat : List Char) : List Char → Int → Int
  | [], i => if pat.isEmpty then i else -1
  | s :: rest, i =>
    if qStarts pat (s :: rest) then i else indexOfSubAux pat rest (i + 1)

/-- `QString::indexOf`: index of the first occurrence of `pat`, or `-1`. -/
def indexOfSub (pat t : List Char) : Int := indexOfSubAux pat t 0

/-- `QString::contains`. -/
def qContains (pat t : List Char) : Bool := indexOfSub pat t ≥ 0

/-- `QString::trimmed` (leading and trailing whitespace removed). -/
def qTrimmed (t : List Char) : List Char :=
  ((t.dropWhile Char.isWhitespace).reverse.dropWhile Char.isWhitespace).reverse

/-! ### The per-block format array and `setFormat` -/

/-- Set positions `[s, e)` of the format list, `i` being the index of the
list head. -/
def qSetFormatAux (f : QTextCharFormat) (s e : Int) : Int → List QTextCharFormat → List QTextCharFormat
  | _, [] => []
  | i, g :: rest =>
    (if s ≤ i ∧ i < e then f else g) :: qSetFormatAux f s e (i + 1) rest

/-- `QSyntaxHighlighter::setFormat(start, count, format)`: ignored when
`start` is out of range, otherwise applies `format` to the characters of
`[start, start+count)` that exist (a non-positive `count` changes
nothing). -/
def qSetFormat (paint : List QTextCharFormat) (start count : Int) (f : QTextCharFormat) : List QTextCharFormat :=
  if start < 0 ∨ (paint.length : Int) ≤ start then paint
  else qSetFormatAux f start (start + count) 0 paint

/-! ### A small backtracking regex matcher

The highlighting rules are `QRegularExpression`s; each pattern is
transcribed into this AST.  The matcher returns all (end, captures)
results in PCRE priority order (greedy/lazy, leftmost alternative first);
`reFind` takes the leftmost, highest-priority match. -/

inductive CharSpec where
  | one (c : Char)
  | digit
  | space
  | word
deriving DecidableEq, Repr

/-- Whether a character matches `[A-Za-z0-9_]`, PCRE's default `\w`. -/
def isWordChar (c : Char) : Bool := c.isAlphanum || c == '_'

def specMatch : CharSpec → Char → Bool
  | .one a, c => c == a
  | .digit, c => c.isDigit
  | .space, c => c == ' ' || c == '\t' || c == '\n' || c == '\r' || c == '\x0b' || c == '\x0c'
  | .word, c => isWordChar c

inductive Regex where
  | eps
  | ch (c : Char)
  | anyC
  | cls (neg : Bool) (l : List CharSpec)
  | seqR (a b : Regex)
  | alt (a b : Regex)
  | star (lazy : Bool) (a : Regex)
  | group (idx : Nat) (a : Regex)
  | bol
  | eol
  | wordB (neg : Bool)
deriving DecidableEq, Repr

/-- Captures: `(group index, start, end)`, most recent first. -/
abbrev Caps := List (Nat × Nat × Nat)

/-- Run the matcher at position `pos`; returns all `(end, captures)`
results in priority order.  A `star` iteration must consume at least one
character (all starred sub-patterns of the rules below are
non-nullable). -/
def mrun : Nat → Regex → List Char → Nat → Caps → List (Nat × Caps)
  | 0, _, _, _, _ => []
  | _ + 1, .eps, _, pos, caps => [(pos, caps)]
  | _ + 1, .ch c, text, pos, caps =>
    match text.get? pos with
    | some c' => if c' == c then [(pos + 1, caps)] else []
    | none => []
  | _ + 1, .anyC, text, pos, caps =>
    match text.get? pos with
    | some c' => if c' == '\n' then [] else [(pos + 1, caps)]
    | none => []
  | _ + 1, .cls neg l, text, pos, caps =>
    match text.get? pos with
    | some c' => if (l.any (specMatch · c')) != neg then [(pos + 1, caps)] else []
    | none => []
  | fuel + 1, .seqR a b, text, pos, caps =>
    (mrun fuel a text pos caps).flatMap (fun pc => mrun fuel b text pc.1 pc.2)
  | fuel + 1, .alt a b, text, pos, caps =>
    mrun fuel a text pos caps ++ mrun fuel b text pos caps
  | fuel + 1, .star lazy a, text, pos, caps =>
    let step := (mrun fuel a text pos caps).filter (fun pc => pos < pc.1)
    let more := step.flatMap (fun pc => mrun fuel (.star lazy a) text pc.1 pc.2)
    if lazy then (pos, caps) :: more else more ++ [(pos, caps)]
  | fuel + 1, .group i a, text, pos, caps =>
    (mrun fuel a text pos caps).map (fun pc => (pc.1, (i, pos, pc.1) :: pc.2))
  | _ + 1, .bol, _, pos, caps => if pos == 0 then [(pos, caps)] else []
  | _ + 1, .eol, text, pos, caps => if pos == text.length then [(pos, caps)] else []
  | _ + 1, .wordB neg, text, pos, caps =>
    let before := match pos, text.get? (pos - 1) with
      | 0, _ => false
      | _ + 1, some c => isWordChar c
      | _ + 1, none => false
    let after := match text.get? pos with
      | some c => isWordChar c
      | none => false
    if (before != after) != neg then [(pos, caps)] else []

/-- Size bound used to pick a sufficient matcher fuel. -/
def Regex.sizeR : Regex → Nat
  | .seqR a b => a.sizeR + b.sizeR + 1
  | .alt a b => a.sizeR + b.sizeR + 1
  | .star _ a => a.sizeR + 1
  | .group _ a => a.sizeR + 1
  | _ => 1

/-- A single regex match: whole-match bounds plus captures. -/
structure RMatch where
  ms : Nat
  me : Nat
  caps : Caps
deriving DecidableEq, Repr

/-- Leftmost match at or after `from0`. -/
def reFindAux (r : Regex) (text : List Char) (fuel : Nat) : Nat → Option RMatch
  | from0 =>
    match fuel, mrun ((r.sizeR + 2) * (text.length + 2)) r text from0 [] with
    | _, (e, cs) :: _ => some ⟨from0, e, cs⟩
    | 0, [] => none
    | fuel' + 1, [] =>
      if from0 < text.length then reFindAux r text fuel' (from0 + 1) else none

/-- `QRegularExpressionMatchIterator` semantics: successive non-overlapping
leftmost matches; an empty match advances by one position. -/
def globalMatchesAux (r : Regex) (text : List Char) : Nat → Nat → List RMatch
  | 0, _ => []
  | fuel + 1, from0 =>
    match reFindAux r text (text.length + 1) from0 with
    | none => []
    | some m =>
      if from0 ≤ text.length then
        m :: globalMatchesAux r text fuel (if m.me ≤ m.ms then m.ms + 1 else m.me)
      else []

def globalMatches (r : Regex) (text : List Char) : List RMatch :=
  globalMatchesAux r text (text.length + 2) 0

/-- `QRegularExpressionMatch::capturedStart` (`-1` when the group did not
participate; group `0` is the whole match). -/
def capturedStart (m : RMatch) (g : Nat) : Int :=
  if g == 0 then (m.ms : Int)
  else match m.caps.find? (fun t => t.1 == g) with
    | some t => (t.2.1 : Int)
    | none => -1

/-- `QRegularExpressionMatch::capturedLength` (`0` when the group did not
participate). -/
def capturedLength (m : RMatch) (g : Nat) : Int :=
  if g == 0 then (m.me : Int) - (m.ms : Int)
  else match m.caps.find? (fun t => t.1 == g) with
    | some t => (t.2.2 : Int) - (t.2.1 : Int)
    | none => 0

/-! Pattern-building helpers (plain functions, no notation). -/

def Regex.seqs : List Regex → Regex
  | [] => .eps
  | [r] => r
  | r :: rest => .seqR r (Regex.seqs rest)

def Regex.lit (s : String) : Regex := Regex.seqs (s.toList.map .ch)

/-- `x+` (greedy when `lazy = false`). -/
def Regex.plusR (lazy : Bool) (a : Regex) : Regex := .seqR a (.star lazy a)

/-- `x?` (greedy when `lazy = false`). -/
def Regex.opt (lazy : Bool) (a : Regex) : Regex :=
  if lazy then .alt .eps a else .alt a .eps

/-- `x{n,}` greedy. -/
def Regex.atLeast (n : Nat) (a : Regex) : Regex :=
  Regex.seqs (List.replicate n a ++ [.star false a])

def Regex.wsp : Regex := .cls false [.space]
def Regex.nwsp : Regex := .cls true [.space]
def Regex.wrd : Regex := .cls false [.word]
def Regex.dgt : Regex := .cls false [.digit]

/-! ### Highlighting rules (`initHighlightingRules`) -/

/-- Modelled from the spec: the `HighlightingRule` struct is declared in the
header (not among the sources).  Per the spec's data model, `capturingGroup`
is an optional index with `0` meaning the whole match, `maskedGroup`
defaults to the capturing group, and the two boolean flags default to
off. -/
structure HighlightingRule where
  state : Int
  pattern : Regex
  capturingGroup : Nat := 0
  maskedGroup : Nat := 0
  useStateAsCurrentBlockState : Bool := false
  disableIfCurrentStateIsSet : Bool := false

/-! Each pattern below transcribes the `QRegularExpression` literal of
`initHighlightingRules`, in source order.  `\b` inside a character class is
the backspace character `\x08`. -/

/-- Pattern `^\[.+?\]: \w+://.+$` (reference of reference links). -/
def patRefLink : Regex :=
  Regex.seqs [.bol, .ch '[', Regex.plusR true .anyC, Regex.lit "]: ",
    Regex.plusR false Regex.wrd, Regex.lit "://", Regex.plusR false .anyC, .eol]

/-- Pattern `^\s*[-*+]\s` (unordered lists). -/
def patUnorderedList : Regex :=
  Regex.seqs [.bol, .star false Regex.wsp, .cls false [.one '-', .one '*', .one '+'], Regex.wsp]

/-- Pattern `^\s*\d+\.\s` (ordered lists). -/
def patOrderedList : Regex :=
  Regex.seqs [.bol, .star false Regex.wsp, Regex.plusR false Regex.dgt, .ch '.', Regex.wsp]

/-- Pattern `^\s*(>\s*)+` (block quotes, default option). -/
def patBlockQuote : Regex :=
  Regex.seqs [.bol, .star false Regex.wsp,
    Regex.plusR false (.group 1 (.seqR (.ch '>') (.star false Regex.wsp)))]

/-- Pattern `^\s*(>\s*.+)` (block quotes with `FullyHighlightedBlockQuote`). -/
def patBlockQuoteFull : Regex :=
  Regex.seqs [.bol, .star false Regex.wsp,
    .group 1 (Regex.seqs [.ch '>', .star false Regex.wsp, Regex.plusR false .anyC])]

/-- Pattern `^([*\-_]\s?){3,}$` (horizontal rulers). -/
def patRuler : Regex :=
  Regex.seqs [.bol,
    Regex.atLeast 3 (.group 1 (.seqR (.cls false [.one '*', .one '-', .one '_'])
      (Regex.opt false Regex.wsp))), .eol]

/-- Pattern `(?:^|[^\*\b])(?:\*([^\* ][^\*]*?)\*)(?:[^\*\b]|$)` (italic). -/
def patItalicStar : Regex :=
  Regex.seqs [.alt .bol (.cls true [.one '*', .one '\x08']),
    .ch '*',
    .group 1 (.seqR (.cls true [.one '*', .one ' ']) (.star true (.cls true [.one '*']))),
    .ch '*',
    .alt (.cls true [.one '*', .one '\x08']) .eol]

/-- Pattern `\b_([^_]+)_\b` (italic with underscores). -/
def patItalicUnderscore : Regex :=
  Regex.seqs [.wordB false, .ch '_', .group 1 (Regex.plusR false (.cls true [.one '_'])),
    .ch '_', .wordB false]

/-- Pattern `\B\*{2}(.+?)\*{2}\B` (bold). -/
def patBoldStar : Regex :=
  Regex.seqs [.wordB true, .ch '*', .ch '*', .group 1 (Regex.plusR true .anyC),
    .ch '*', .ch '*', .wordB true]

/-- Pattern `\b__(.+?)__\b` (bold with underscores). -/
def patBoldUnderscore : Regex :=
  Regex.seqs [.wordB false, Regex.lit "__", .group 1 (Regex.plusR true .anyC),
    Regex.lit "__", .wordB false]

/-- Pattern `\~{2}(.+?)\~{2}` (strike through). -/
def patStrike : Regex :=
  Regex.seqs [Regex.lit "~~", .group 1 (Regex.plusR true .anyC), Regex.lit "~~"]

/-- Pattern `\b\w+?:\/\/[^\s]+` (bare urls). -/
def patUrlBare : Regex :=
  Regex.seqs [.wordB false, Regex.plusR true Regex.wrd, Regex.lit "://",
    Regex.plusR false Regex.nwsp]

/-- Pattern `<(\w+?:\/\/[^\s]+)>` (urls in angle brackets without a dot). -/
def patUrlAngle : Regex :=
  Regex.seqs [.ch '<',
    .group 1 (Regex.seqs [Regex.plusR true Regex.wrd, Regex.lit "://", Regex.plusR false Regex.nwsp]),
    .ch '>']

/-- Pattern `<([^\s`][^`]*?\.[^`]*?[^\s`])>` (links in angle brackets with a dot). -/
def patLinkAngleDot : Regex :=
  Regex.seqs [.ch '<',
    .group 1 (Regex.seqs [.cls true [.space, .one '`'], .star true (.cls true [.one '`']),
      .ch '.', .star true (.cls true [.one '`']), .cls true [.space, .one '`']]),
    .ch '>']

/-- Pattern `\[([^\[\]]+)\]\((\S+|.+?)\)\B` (urls with title). -/
def patUrlTitle : Regex :=
  Regex.seqs [.ch '[', .group 1 (Regex.plusR false (.cls true [.one '[', .one ']'])),
    Regex.lit "](",
    .group 2 (.alt (Regex.plusR false Regex.nwsp) (Regex.plusR true .anyC)),
    .ch ')', .wordB true]

/-- Pattern `\[\]\((.+?)\)` (urls with empty title). -/
def patUrlEmptyTitle : Regex :=
  Regex.seqs [Regex.lit "[](", .group 1 (Regex.plusR true .anyC), .ch ')']

/-- Pattern `<(.+?@.+?)>` (email links). -/
def patEmail : Regex :=
  Regex.seqs [.ch '<',
    .group 1 (Regex.seqs [Regex.plusR true .anyC, .ch '@', Regex.plusR true .anyC]), .ch '>']

/-- Pattern `\[(.+?)\]\[.+?\]` (reference links). -/
def patRefUrl : Regex :=
  Regex.seqs [.ch '[', .group 1 (Regex.plusR true .anyC), Regex.lit "][",
    Regex.plusR true .anyC, .ch ']']

/-- Pattern `!\[(.+?)\]\(.+?\)` (images with text). -/
def patImage : Regex :=
  Regex.seqs [Regex.lit "![", .group 1 (Regex.plusR true .anyC), Regex.lit "](",
    Regex.plusR true .anyC, .ch ')']

/-- Pattern `!\[\]\((.+?)\)` (images without text). -/
def patImageEmpty : Regex :=
  Regex.seqs [Regex.lit "![](", .group 1 (Regex.plusR true .anyC), .ch ')']

/-- Pattern `\[!\[(.+?)\]\(.+?\)\]\(.+?\)` (image links). -/
def patImageLink : Regex :=
  Regex.seqs [Regex.lit "[![", .group 1 (Regex.plusR true .anyC), Regex.lit "](",
    Regex.plusR true .anyC, Regex.lit ")](", Regex.plusR true .anyC, .ch ')']

/-- Pattern `\[!\[\]\(.+?\)\]\((.+?)\)` (image links without text). -/
def patImageLinkEmpty : Regex :=
  Regex.seqs [Regex.lit "[![](", Regex.plusR true .anyC, Regex.lit ")](",
    .group 1 (Regex.plusR true .anyC), .ch ')']

/-- Pattern `( +)$` (trailing spaces). -/
def patTrailingSpace : Regex :=
  Regex.seqs [.group 1 (Regex.plusR false (.ch ' ')), .eol]

/-- Pattern `` `(.+?)` `` (inline code). -/
def patInlineCode : Regex :=
  Regex.seqs [.ch '`', .group 1 (Regex.plusR true .anyC), .ch '`']

/-- Pattern `^((\t)|( {4,})).+$` (indented code blocks). -/
def patIndentedCode : Regex :=
  Regex.seqs [.bol,
    .group 1 (.alt (.group 2 (.ch '\t')) (.group 3 (Regex.atLeast 4 (.ch ' ')))),
    Regex.plusR false .anyC, .eol]

/-- Pattern `<!\-\-(.+?)\-\->` (inline comments). -/
def patInlineComment : Regex :=
  Regex.seqs [Regex.lit "<!--", .group 1 (Regex.plusR true .anyC), Regex.lit "-->"]

/-- Pattern `^\[.+?\]: # \(.+?\)$` (Rmarkdown comments). -/
def patRmarkComment : Regex :=
  Regex.seqs [.bol, .ch '[', Regex.plusR true .anyC, Regex.lit "]: # (",
    Regex.plusR true .anyC, .ch ')', .eol]

/-- Pattern `^\|.+?\|$` (tables with starting `|`). -/
def patTable : Regex :=
  Regex.seqs [.bol, .ch '|', Regex.plusR true .anyC, .ch '|', .eol]

/-- The pre-pass rules appended to `_highlightingRulesPre`, in source
order. -/
def highlightingRulesPre (cfg : Config) : List HighlightingRule :=
  [ { state := HighlighterState.MaskedSyntax, pattern := patRefLink },
    { state := HighlighterState.List, pattern := patUnorderedList,
      useStateAsCurrentBlockState := true },
    { state := HighlighterState.List, pattern := patOrderedList,
      useStateAsCurrentBlockState := true },
    { state := HighlighterState.BlockQuote,
      pattern := if cfg.fullyHighlightedBlockQuote then patBlockQuoteFull else patBlockQuote },
    { state := HighlighterState.HorizontalRuler, pattern := patRuler } ]

/-- The post-pass rules appended to `_highlightingRulesAfter`, in source
order (each rule's capturing group carries over to the next pattern of the
same block, exactly as in the source). -/
def highlightingRulesAfter : List HighlightingRule :=
  [ { state := HighlighterState.Italic, pattern := patItalicStar,
      capturingGroup := 1, maskedGroup := 1 },
    { state := HighlighterState.Italic, pattern := patItalicUnderscore,
      capturingGroup := 1, maskedGroup := 1 },
    { state := HighlighterState.Bold, pattern := patBoldStar,
      capturingGroup := 1, maskedGroup := 1 },
    { state := HighlighterState.Bold, pattern := patBoldUnderscore,
      capturingGroup := 1, maskedGroup := 1 },
    { state := HighlighterState.MaskedSyntax, pattern := patStrike,
      capturingGroup := 1, maskedGroup := 1 },
    { state := HighlighterState.Link, pattern := patUrlBare },
    { state := HighlighterState.Link, pattern := patUrlAngle,
      capturingGroup := 1, maskedGroup := 1 },
    { state := HighlighterState.Link, pattern := patLinkAngleDot,
      capturingGroup := 1, maskedGroup := 1 },
    { state := HighlighterState.Link, pattern := patUrlTitle,
      capturingGroup := 1, maskedGroup := 1 },
    { state := HighlighterState.Link, pattern := patUrlEmptyTitle,
      capturingGroup := 1, maskedGroup := 1 },
    { state := HighlighterState.Link, pattern := patEmail,
      capturingGroup := 1, maskedGroup := 1 },
    { state := HighlighterState.Link, pattern := patRefUrl,
      capturingGroup := 1, maskedGroup := 1 },
    { state := HighlighterState.Image, pattern := patImage,
      capturingGroup := 1, maskedGroup := 1 },
    { state := HighlighterState.Image, pattern := patImageEmpty,
      capturingGroup := 1, maskedGroup := 1 },
    { state := HighlighterState.Link, pattern := patImageLink,
      capturingGroup := 1, maskedGroup := 1 },
    { state := HighlighterState.Link, pattern := patImageLinkEmpty,
      capturingGroup := 1, maskedGroup := 1 },
    { state := HighlighterState.TrailingSpace, pattern := patTrailingSpace,
      capturingGroup := 1, maskedGroup := 1 },
    { state := HighlighterState.InlineCodeBlock, pattern := patInlineCode,
      capturingGroup := 1, maskedGroup := 1 },
    { state := HighlighterState.CodeBlock, pattern := patIndentedCode,
      disableIfCurrentStateIsSet := true },
    { state := HighlighterState.Comment, pattern := patInlineComment,
      capturingGroup := 1, maskedGroup := 1 },
    { state := HighlighterState.Comment, pattern := patRmarkComment,
      capturingGroup := 1, maskedGroup := 1 },
    { state := HighlighterState.Table, pattern := patTable } ]

/-! ### Text formats (`initTextFormats`) -/

/-- The character-format table built by `initTextFormats(defaultFontSize)`;
states that are never assigned keep the default `QTextCharFormat`.
`QFont::Bold` is `75`; the italic format's `setFontWeight(QFont::StyleItalic)`
stores the enum value `1`, exactly as the source does. -/
def initTextFormats (cfg : Config) : Int → QTextCharFormat := fun s =>
  if s = HighlighterState.H1 then
    { foreground := some ⟨0, 49, 110⟩, fontWeight := some 75,
      fontPointSize := cfg.defaultFontSize * (8 / 5 : Rat) }
  else if s = HighlighterState.H2 then
    { foreground := some ⟨0, 49, 110⟩, fontWeight := some 75,
      fontPointSize := cfg.defaultFontSize * (3 / 2 : Rat) }
  else if s = HighlighterState.H3 then
    { foreground := some ⟨0, 49, 110⟩, fontWeight := some 75,
      fontPointSize := cfg.defaultFontSize * (7 / 5 : Rat) }
  else if s = HighlighterState.H4 then
    { foreground := some ⟨0, 49, 110⟩, fontWeight := some 75,
      fontPointSize := cfg.defaultFontSize * (13 / 10 : Rat) }
  else if s = HighlighterState.H5 then
    { foreground := some ⟨0, 49, 110⟩, fontWeight := some 75,
      fontPointSize := cfg.defaultFontSize * (6 / 5 : Rat) }
  else if s = HighlighterState.H6 then
    { foreground := some ⟨0, 49, 110⟩, fontWeight := some 75,
      fontPointSize := cfg.defaultFontSize * (11 / 10 : Rat) }
  else if s = HighlighterState.HorizontalRuler then
    { foreground := some qDarkGray, background := some qLightGray }
  else if s = HighlighterState.List then
    { foreground := some ⟨163, 0, 123⟩ }
  else if s = HighlighterState.Link then
    { foreground := some ⟨0, 128, 255⟩, fontUnderline := some true }
  else if s = HighlighterState.Image then
    { foreground := some ⟨0, 191, 0⟩, background := some ⟨228, 255, 228⟩ }
  else if s = HighlighterState.CodeBlock ∨ s = HighlighterState.InlineCodeBlock then
    { isFixedFont := true, fontPointSize := cfg.fixedFontSize,
      background := some ⟨220, 220, 220⟩ }
  else if s = HighlighterState.Italic then
    { fontWeight := some 1, fontItalic := some true }
  else if s = HighlighterState.Bold then
    { fontWeight := some 75 }
  else if s = HighlighterState.Comment then
    { foreground := some qGray }
  else if s = HighlighterState.MaskedSyntax then
    { foreground := some ⟨204, 204, 204⟩ }
  else if s = HighlighterState.Table then
    { isFixedFont := true, fontPointSize := cfg.fixedFontSize,
      foreground := some ⟨100, 148, 73⟩ }
  else if s = HighlighterState.BlockQuote then
    { foreground := some qDarkRed }
  else {}

/-! ### `highlightAdditionalRules` and `setHeadingStyles` -/

/-- Whether the current block state is one of `H1..H6`. -/
def isHeadingState (s : Int) : Bool :=
  s == HighlighterState.H1 || s == HighlighterState.H2 || s == HighlighterState.H3 ||
  s == HighlighterState.H4 || s == HighlighterState.H5 || s == HighlighterState.H6

/-- `setHeadingStyles`: blends italic/bold/link formatting with the
enclosing heading's format. -/
def setHeadingStyles (fmts : Int → QTextCharFormat) (state : Int)
    (format : QTextCharFormat) (m : RMatch) (capturedGroup : Nat)
    (paint : List QTextCharFormat) : List QTextCharFormat :=
  let f :=
    if state == HighlighterState.H1 then fmts HighlighterState.H1
    else if state == HighlighterState.H2 then fmts HighlighterState.H2
    else if state == HighlighterState.H3 then fmts HighlighterState.H3
    else if state == HighlighterState.H4 then fmts HighlighterState.H4
    else if state == HighlighterState.H5 then fmts HighlighterState.H5
    else fmts HighlighterState.H6
  if format == fmts HighlighterState.Italic then
    let f := { f with fontItalic := some true }
    qSetFormat paint (capturedStart m capturedGroup) (capturedLength m capturedGroup) f
  else if format == fmts HighlighterState.Bold then
    qSetFormat paint (capturedStart m capturedGroup) (capturedLength m capturedGroup) f
  else if format == fmts HighlighterState.Link then
    let link := { fmts HighlighterState.Link with fontPointSize := f.fontPointSize }
    if capturedGroup == 1 then
      qSetFormat paint (capturedStart m capturedGroup) (capturedLength m capturedGroup) link
    else paint
  else paint

/-- Paint one match of a rule (the body of the `while (iterator.hasNext())`
loop, with the `setHeadingStyles(format, match, maskedGroup)` call in the
masked branch commented out exactly as in the source). -/
def applyRuleMatch (fmts : Int → QTextCharFormat) (rule : HighlightingRule) (state : Int)
    (paint : List QTextCharFormat) (m : RMatch) : List QTextCharFormat :=
  let maskedFormat := fmts HighlighterState.MaskedSyntax
  let format := fmts rule.state
  let paint :=
    if rule.capturingGroup > 0 then
      let currentMaskedFormat :=
        if format.fontPointSize > 0 then
          { maskedFormat with fontPointSize := format.fontPointSize }
        else maskedFormat
      if isHeadingState state && format != fmts HighlighterState.InlineCodeBlock then paint
      else
        qSetFormat paint (capturedStart m rule.maskedGroup)
          (capturedLength m rule.maskedGroup) currentMaskedFormat
    else paint
  if isHeadingState state && format != fmts HighlighterState.InlineCodeBlock then
    setHeadingStyles fmts state format m rule.capturingGroup paint
  else
    qSetFormat paint (capturedStart m rule.capturingGroup)
      (capturedLength m rule.capturingGroup) format

/-- Apply one highlighting rule to the line. -/
def applyRule (fmts : Int → QTextCharFormat) (text : List Char)
    (st : Int × List QTextCharFormat) (rule : HighlightingRule) : Int × List QTextCharFormat :=
  if rule.disableIfCurrentStateIsSet && st.1 != HighlighterState.NoState then st
  else
    let ms := globalMatches rule.pattern text
    let state :=
      if !ms.isEmpty && rule.useStateAsCurrentBlockState then rule.state else st.1
    (state, ms.foldl (applyRuleMatch fmts rule state) st.2)

/-- `highlightAdditionalRules`: apply the rules of a pass in list order. -/
def highlightAdditionalRules (fmts : Int → QTextCharFormat)
    (rules : List HighlightingRule) (text : List Char)
    (st : Int × List QTextCharFormat) : Int × List QTextCharFormat :=
  rules.foldl (applyRule fmts text) st

/-! ### `highlightHeadline` -/

/-- The `hasOnlyHeadChars` lambda of `highlightHeadline`. -/
def hasOnlyHeadChars (txt : List Char) (c : Char) : Bool :=
  !txt.isEmpty && txt.all (· == c)

/-- The `headingFound` test: the text starts with 1–6 `#` followed by a
space. -/
def headingFoundFn (text : List Char) : Bool :=
  qStarts ("# ".toList) text || qStarts ("## ".toList) text ||
  qStarts ("### ".toList) text || qStarts ("#### ".toList) text ||
  qStarts ("##### ".toList) text || qStarts ("###### ".toList) text

/-- The `#` count of the ATX branch: number of `#` characters among the
first `min 6 (length text)` characters. -/
def hashCount (text : List Char) : Nat := (text.take 6).count '#'

/-- Result of `highlightHeadline`: besides the block's state and formats it
may set the previous block's user state and request that the previous
block be re-enqueued (`addDirtyBlock(previousBlock)`). -/
structure HeadlineRes where
  state : Int
  paint : List QTextCharFormat
  prevOverride : Option Int
  markPrevDirty : Bool

/-- `highlightHeadline`. -/
def highlightHeadline (fmts : Int → QTextCharFormat)
    (text prevText nextText : List Char) (previousBlockState : Int)
    (st : Int × List QTextCharFormat) : HeadlineRes :=
  let maskedFormat := fmts HighlighterState.MaskedSyntax
  if headingFoundFn text then
    let count : Int := (hashCount text : Int)
    let state := HighlighterState.H1 + count - 1
    let currentMaskedFormat :=
      { maskedFormat with fontPointSize := (fmts state).fontPointSize }
    -- first highlight everything as MaskedSyntax
    let paint := qSetFormat st.2 0 (text.length : Int) currentMaskedFormat
    -- then highlight with the real format
    let paint := qSetFormat paint count ((text.length : Int) - count) (fmts state)
    ⟨state, paint, none, false⟩
  else if hasOnlyHeadChars text '=' then
    if (previousBlockState == HighlighterState.H1 ||
        previousBlockState == HighlighterState.NoState) && decide (prevText.length > 0) then
      let currentMaskedFormat :=
        { maskedFormat with fontPointSize := (fmts HighlighterState.H1).fontPointSize }
      ⟨HighlighterState.HeadlineEnd,
        qSetFormat st.2 0 (text.length : Int) currentMaskedFormat,
        some HighlighterState.H1, true⟩
    else ⟨st.1, st.2, none, false⟩
  else if hasOnlyHeadChars text '-' then
    if (previousBlockState == HighlighterState.H2 ||
        previousBlockState == HighlighterState.NoState) && decide (prevText.length > 0) then
      let currentMaskedFormat :=
        { maskedFormat with fontPointSize := (fmts HighlighterState.H2).fontPointSize }
      ⟨HighlighterState.HeadlineEnd,
        qSetFormat st.2 0 (text.length : Int) currentMaskedFormat,
        some HighlighterState.H2, true⟩
    else ⟨st.1, st.2, none, false⟩
  else
    -- check next block for ==== and ----
    let st :=
      if hasOnlyHeadChars nextText '=' then
        (HighlighterState.H1,
          qSetFormat st.2 0 (text.length : Int) (fmts HighlighterState.H1))
      else st
    let st :=
      if hasOnlyHeadChars nextText '-' then
        (HighlighterState.H2,
          qSetFormat st.2 0 (text.length : Int) (fmts HighlighterState.H2))
      else st
    ⟨st.1, st.2, none, false⟩

/-! ### `loadCppData` and `highlightSyntax` (the embedded-language scanner)

Character reads `text[i]` are instrumented: `hsRead` sets the `oob` flag
when the index is out of `[0, length)`.  The source's adjacent string
literals `"auto"  "asm "` concatenate to the single entry `"autoasm "`,
which is kept as-is. -/

def cppTypes : List (List Char) :=
  ["QString", "QList", "QVector", "QHash", "QMap",
   "int", "float", "string", "double", "long", "vector",
   "short", "char", "void", "bool", "wchar_t",
   "class", "struct", "union", "enum"].map String.toList

def cppKeywords : List (List Char) :=
  ["while", "if", "for", "do", "return", "else", "switch",
   "case", "break", "continue",
   "namespace", "using",
   "unsigned", "const", "static", "mutable", "autoasm ", "volatile",
   "static_cast", "dynamic_cast", "reinterpret_cast", "const_cast",
   "nullptr",
   "public", "private", "protected", "signal", "slot",
   "new", "delete", "operator", "template", "this",
   "false", "true", "explicit ", "sizeof",
   "try", "catch", "throw"].map String.toList

def cppPreproc : List (List Char) :=
  ["ifndef", "ifdef", "include", "define", "endif"].map String.toList

/-- Scanner state: the paints done so far and whether any character read
went out of bounds. -/
structure SyntaxSt where
  paint : List QTextCharFormat
  oob : Bool
deriving Repr

/-- An instrumented `text[i]` read. -/
def hsRead (text : List Char) (i : Int) (st : SyntaxSt) : Char × SyntaxSt :=
  if h : 0 ≤ i ∧ i < (text.length : Int) then
    (text.get ⟨i.toNat, by omega⟩, st)
  else (default, { st with oob := true })

/-- The double-quote consumption loop of the string-literal branch
(`while (i < text.length()) { ... }`, lines 776–788): past the opening
quote, advance to the closing quote or near the end of the line, counting
the characters of the literal in `cnt`. -/
def hsStringD (text : List Char) (i cnt : Int) (st : SyntaxSt) : Int × Int × SyntaxSt :=
  if h : i < (text.length : Int) then
    let p := hsRead text i st
    if p.1 == '"' then (i + 1, cnt + 1, p.2)
    else if i + 2 ≥ (text.length : Int) then (i + 1, cnt + 2, p.2)
    else hsStringD text (i + 1) (cnt + 1) p.2
  else (i, cnt, st)
termination_by ((text.length : Int) - i).toNat
decreasing_by simp_wf; omega

/-- The single-quote consumption loop of the char-literal branch (lines
797–809; its bound check precedes the increment, unlike the double-quote
loop). -/
def hsStringS (text : List Char) (i cnt : Int) (st : SyntaxSt) : Int × Int × SyntaxSt :=
  if h : i < (text.length : Int) then
    let p := hsRead text i st
    if p.1 == '\'' then (i + 1, cnt + 1, p.2)
    else if i + 1 ≥ (text.length : Int) then (i, cnt + 1, p.2)
    else hsStringS text (i + 1) (cnt + 1) p.2
  else (i, cnt, st)
termination_by ((text.length : Int) - i).toNat
decreasing_by simp_wf; omega

/-- Result of the inner `while (!text[i].isLetter())` loop: either the
whole line scan ended (`return` in the source), or the scan stopped on a
letter at position `i`. -/
inductive WhileRes where
  | done (st : SyntaxSt)
  | letterAt (i : Int) (f : QTextCharFormat) (st : SyntaxSt)

/-- The `while (!text[i].isLetter())` loop of `highlightSyntax`.  The
source's second `else if (text[i] == '/' && text[i+1] == '*')` branch is
unreachable (its first conjunct was just tested by the preceding branch)
and is omitted; in the block-comment case the enclosing
`if (text[i] == '/')` block always falls through to `return`, which is why
every `/` ends the scan of the line. -/
def hsWhile (text : List Char) : Nat → Int → QTextCharFormat → SyntaxSt → WhileRes
  | 0, _, _, st => .done st
  | fuel + 1, i, f, st =>
    let p0 := hsRead text i st
    let c := p0.1
    let st := p0.2
    if c.isAlpha then .letterAt i f st
    else if c == '/' then
      -- inline comment
      if i + 1 < (text.length : Int) then
        let p1 := hsRead text (i + 1) st
        let st := p1.2
        if p1.1 == '/' then
          let f := { f with foreground := some qDarkGray }
          .done { st with paint := qSetFormat st.paint i (text.length : Int) f }
        else if p1.1 == '*' then
          let next := indexOfSub ("*/".toList) text
          let f := { f with foreground := some qDarkGray }
          if next == -1 then
            .done { st with paint := qSetFormat st.paint i (text.length : Int) f }
          else
            .done { st with paint := qSetFormat st.paint i (next + 2 - i) f }
        else .done st
      else .done st
    else if c.isDigit then
      -- integer literal
      let pa :=
        if i + 1 < (text.length : Int) ∧ i - 1 > 0 then
          let p1 := hsRead text (i + 1) st
          if p1.1.isAlpha then (true, p1.2)
          else
            let p2 := hsRead text (i - 1) p1.2
            (p2.1.isAlpha, p2.2)
        else (false, st)
      let st := pa.2
      if pa.1 then hsWhile text fuel (i + 1) f st
      else
        let f := { f with foreground := some qDarkYellow }
        let st := { st with paint := qSetFormat st.paint i 1 f }
        if i + 1 ≥ (text.length : Int) then .done st
        else hsWhile text fuel (i + 1) f st
    else if c == '"' then
      -- string literal
      let pos := i
      let f := { f with foreground := some qDarkGreen }
      let i := i + 1
      -- bound check
      if i + 1 ≥ (text.length : Int) then .done st
      else
        let r := hsStringD text i 1 st
        let st := { r.2.2 with paint := qSetFormat r.2.2.paint pos r.2.1 f }
        if r.1 + 1 ≥ (text.length : Int) then .done st
        else hsWhile text fuel (r.1 + 1) f st
    else if c == '\'' then
      -- char literal
      let pos := i
      let f := { f with foreground := some qDarkGreen }
      let i := i + 1
      -- bound check
      if i + 1 ≥ (text.length : Int) then .done st
      else
        let r := hsStringS text i 1 st
        let st := { r.2.2 with paint := qSetFormat r.2.2.paint pos r.2.1 f }
        if r.1 + 1 ≥ (text.length : Int) then .done st
        else hsWhile text fuel (r.1 + 1) f st
    else
      if i + 1 ≥ (text.length : Int) then .done st
      else hsWhile text fuel (i + 1) f st

/-- `types[j] == text.midRef(i, types[j].length())`. -/
def tokenAt (text : List Char) (i : Int) (tok : List Char) : Bool :=
  ((text.drop i.toNat).take tok.length) == tok

/-- One iteration of a token-table loop: paint the token at `i` with
`col` and advance past it unless the position sits in the middle of a
word. -/
def tokenPassStep (text : List Char) (col : QColor)
    (acc : Int × QTextCharFormat × SyntaxSt) (tok : List Char) :
    Int × QTextCharFormat × SyntaxSt :=
  let i := acc.1
  let f := acc.2.1
  let st := acc.2.2
  if tokenAt text i tok then
    -- check if we are in the middle of a word
    let pm :=
      if i + (tok.length : Int) < (text.length : Int) ∧ i > 0 then
        let p1 := hsRead text (i + (tok.length : Int)) st
        if p1.1.isAlpha then (true, p1.2)
        else
          let p2 := hsRead text (i - 1) p1.2
          (p2.1.isAlpha, p2.2)
      else (false, st)
    if pm.1 then (i, f, pm.2)
    else
      let f := { f with foreground := some col }
      ((i + (tok.length : Int)), f,
        { pm.2 with paint := qSetFormat pm.2.paint i (tok.length : Int) f })
  else (i, f, st)

/-- One token-table `for (int j = 0; ...)` loop of `highlightSyntax`. -/
def tokenPass (text : List Char) (toks : List (List Char)) (col : QColor)
    (i : Int) (f : QTextCharFormat) (st : SyntaxSt) : Int × QTextCharFormat × SyntaxSt :=
  toks.foldl (tokenPassStep text col) (i, f, st)

/-- The outer `for (int i = 0; i < text.length(); i++)` loop of
`highlightSyntax`. -/
def hsOuter (text : List Char) (types keywords preproc : List (List Char)) :
    Nat → Int → QTextCharFormat → SyntaxSt → SyntaxSt
  | 0, _, _, st => st
  | fuel + 1, i, f, st =>
    if i < (text.length : Int) then
      match hsWhile text (fuel + 1) i f st with
      | .done st => st
      | .letterAt i f st =>
        let a1 := tokenPass text types qDarkBlue i f st
        let a2 := tokenPass text keywords qCyan a1.1 a1.2.1 a1.2.2
        let a3 := tokenPass text preproc qMagenta a2.1 a2.2.1 a2.2.2
        hsOuter text types keywords preproc fuel (a3.1 + 1) a3.2.1 a3.2.2
    else st

/-- `highlightSyntax(text)`: the embedded-language scanner.  Only
`CodeCpp` loads token tables (the source's `switch` has no other case). -/
def highlightSyntax (fmts : Int → QTextCharFormat) (currentBlockState : Int)
    (text : List Char) (paint : List QTextCharFormat) : SyntaxSt :=
  if text.isEmpty then { paint := paint, oob := false }
  else
    let types := if currentBlockState == HighlighterState.CodeCpp then cppTypes else []
    let keywords := if currentBlockState == HighlighterState.CodeCpp then cppKeywords else []
    let preproc := if currentBlockState == HighlighterState.CodeCpp then cppPreproc else []
    -- keep the default code block format
    let f := fmts HighlighterState.CodeBlock
    let st : SyntaxSt := { paint := qSetFormat paint 0 (text.length : Int) f, oob := false }
    hsOuter text types keywords preproc (text.length + 8) 0 f st

/-! ### `highlightCommentBlock`, `highlightCodeBlock`, `highlightFrontmatterBlock` -/

/-- `highlightCommentBlock`: multi-line comments.  Note that the source
trims its local copy of the text, so both the `length > 0` checks and the
painted extent use the trimmed text. -/
def highlightCommentBlock (fmts : Int → QTextCharFormat) (previousBlockState : Int)
    (text0 : List Char) (st : Int × List QTextCharFormat) : Int × List QTextCharFormat :=
  let text := qTrimmed text0
  let startText := "<!--".toList
  let endText := "-->".toList
  -- we will skip this case because that is an inline comment
  if qStarts startText text && qContains endText text then st
  else if qStarts startText text ||
      (!qEnds endText text && previousBlockState == HighlighterState.Comment) then
    (HighlighterState.Comment,
      qSetFormat st.2 0 (text.length : Int) (fmts HighlighterState.Comment))
  else if qEnds endText text then
    (st.1, qSetFormat st.2 0 (text.length : Int) (fmts HighlighterState.Comment))
  else st

/-- The mutation of the shared format table performed by the fence branch
of `highlightCodeBlock`: `_formats[MaskedSyntax]` is taken by reference
and its font point size is set to the code-block format's point size. -/
def codeBlockUpdateMasked (fmts : Int → QTextCharFormat) : Int → QTextCharFormat := fun s =>
  if s = HighlighterState.MaskedSyntax then
    { fmts HighlighterState.MaskedSyntax with
      fontPointSize := (fmts HighlighterState.CodeBlock).fontPointSize }
  else fmts s

/-- `highlightCodeBlock`: multi-line fenced code blocks.  Returns the new
(state, paint), the format table after the call (mutated only on fence
lines), and the scanner's out-of-bounds flag. -/
def highlightCodeBlock (fmts : Int → QTextCharFormat) (previousBlockState : Int)
    (text : List Char) (st : Int × List QTextCharFormat) :
    (Int × List QTextCharFormat) × (Int → QTextCharFormat) × Bool :=
  if qStarts ("```".toList) text then
    let state :=
      if previousBlockState ≠ HighlighterState.CodeBlock ∧ previousBlockState < 200 then
        -- text.midRef(3, text.length())
        let lang := text.drop 3
        if lang == "cpp".toList then HighlighterState.CodeCpp
        else if lang == "js".toList then HighlighterState.CodeJs
        else if text == "```".toList then HighlighterState.CodeBlock
        else HighlighterState.CodeBlock
      else if previousBlockState = HighlighterState.CodeBlock ∨ previousBlockState ≥ 200 then
        HighlighterState.CodeBlockEnd
      else st.1
    let fmts' := codeBlockUpdateMasked fmts
    ((state, qSetFormat st.2 0 (text.length : Int) (fmts' HighlighterState.MaskedSyntax)),
      fmts', false)
  else if previousBlockState == HighlighterState.CodeBlock ||
      previousBlockState == HighlighterState.CodeCpp then
    if previousBlockState == HighlighterState.CodeCpp then
      let r := highlightSyntax fmts HighlighterState.CodeCpp text st.2
      ((HighlighterState.CodeCpp, r.paint), fmts, r.oob)
    else if previousBlockState == HighlighterState.CodeJs then
      -- unreachable: the enclosing condition admits only CodeBlock and CodeCpp
      let r := highlightSyntax fmts HighlighterState.CodeJs text st.2
      ((HighlighterState.CodeJs, r.paint), fmts, r.oob)
    else
      ((HighlighterState.CodeBlock,
        qSetFormat st.2 0 (text.length : Int) (fmts HighlighterState.CodeBlock)), fmts, false)
  else (st, fmts, false)

/-- `highlightFrontmatterBlock`: front-matter blocks, recognized only when
the document's first block is exactly `---`. -/
def highlightFrontmatterBlock (fmts : Int → QTextCharFormat) (previousBlockState : Int)
    (firstText text : List Char) (isFirstBlock : Bool)
    (st : Int × List QTextCharFormat) : Int × List QTextCharFormat :=
  -- return if there is no frontmatter in this document
  if firstText != "---".toList then st
  else if text == "---".toList then
    let foundEnd := previousBlockState == HighlighterState.FrontmatterBlock
    -- there can just be one frontmatter block
    if !foundEnd && !isFirstBlock then st
    else
      ((if foundEnd then HighlighterState.FrontmatterBlockEnd
        else HighlighterState.FrontmatterBlock),
        qSetFormat st.2 0 (text.length : Int) (fmts HighlighterState.MaskedSyntax))
  else if previousBlockState == HighlighterState.FrontmatterBlock then
    (HighlighterState.FrontmatterBlock,
      qSetFormat st.2 0 (text.length : Int) (fmts HighlighterState.MaskedSyntax))
  else st

/-! ### `highlightBlock` / `highlightMarkdown`: classifying one line -/

/-- Everything a single `highlightBlock` call can see: the line's text,
the neighboring lines' texts, the document's first block's text, the
previous block's state, and whether this block is the document's first
block. -/
structure Ctx where
  text : List Char
  prevText : List Char
  nextText : List Char
  firstText : List Char
  prevState : Int
  isFirstBlock : Bool

/-- Everything a single `highlightBlock` call produces: the block's new
state and per-character formats, the format table after the call, the
override written into the previous block's user state, whether the
previous block was enqueued as dirty, and the scanner's out-of-bounds
flag. -/
structure LineResult where
  state : Int
  paint : List QTextCharFormat
  formats : Int → QTextCharFormat
  prevOverride : Option Int
  markPrevDirty : Bool
  oob : Bool

/-- The non-empty-text part of `highlightMarkdown` (after the
`highlightBlock` reset of the state to `NoState`): pre rules, headline
resolution, post rules. -/
def runTextRules (cfg : Config) (fmts : Int → QTextCharFormat) (ctx : Ctx) :
    (Int × List QTextCharFormat) × Option Int × Bool :=
  let st0 : Int × List QTextCharFormat :=
    (HighlighterState.NoState, List.replicate ctx.text.length {})
  if !ctx.text.isEmpty then
    let stA := highlightAdditionalRules fmts (highlightingRulesPre cfg) ctx.text st0
    let hr := highlightHeadline fmts ctx.text ctx.prevText ctx.nextText ctx.prevState stA
    let stB := highlightAdditionalRules fmts highlightingRulesAfter ctx.text (hr.state, hr.paint)
    (stB, hr.prevOverride, hr.markPrevDirty)
  else (st0, none, false)

/-- The comment/code/front-matter tail of `highlightMarkdown`
(independent of line emptiness). -/
def runBlockPhases (fmts : Int → QTextCharFormat) (ctx : Ctx)
    (st : Int × List QTextCharFormat) :
    (Int × List QTextCharFormat) × (Int → QTextCharFormat) × Bool :=
  let st2 := highlightCommentBlock fmts ctx.prevState ctx.text st
  let r3 := highlightCodeBlock fmts ctx.prevState ctx.text st2
  let st4 := highlightFrontmatterBlock r3.2.1 ctx.prevState ctx.firstText ctx.text
    ctx.isFirstBlock r3.1
  (st4, r3.2.1, r3.2.2)

def highlightBlockFn (cfg : Config) (fmts : Int → QTextCharFormat) (ctx : Ctx) : LineResult :=
  let step1 := runTextRules cfg fmts ctx
  let r4 := runBlockPhases fmts ctx step1.1
  { state := r4.1.1, paint := r4.1.2, formats := r4.2.1,
    prevOverride := step1.2.1, markPrevDirty := step1.2.2, oob := r4.2.2 }

/-! ### The dirty-block queue (`addDirtyBlock`, `reHighlightDirtyBlocks`)

Blocks are identified by their index in the document's list of line
texts.  `rehighlightBlock(block)` is modelled as one `highlightBlockFn`
call on that line (the host's rendering machinery is outside the scope of
the sources). -/

/-- The document-level state: each block's committed user state, and the
highlighter's shared format table. -/
structure DocSt where
  states : List Int
  fmts : Int → QTextCharFormat

/-- Build the context a `highlightBlock` call on block `i` sees.  An
invalid block (before the first or past the last) has empty text and
state `-1`. -/
def mkCtx (texts : List (List Char)) (states : List Int) (i : Nat) : Ctx :=
  { text := texts.getD i []
    prevText := if i = 0 then [] else texts.getD (i - 1) []
    nextText := texts.getD (i + 1) []
    firstText := texts.getD 0 []
    prevState := if i = 0 then -1 else states.getD (i - 1) (-1)
    isFirstBlock := i = 0 }

/-- `rehighlightBlock(block)` on block `i`: classify it, commit its state,
apply the previous-block override, and report the block index enqueued by
`addDirtyBlock` (if any; `setUserState`/`addDirtyBlock` on the invalid
block before block 0 are no-ops). -/
def rehighlightOne (cfg : Config) (texts : List (List Char)) (ds : DocSt) (i : Nat) :
    DocSt × Option Nat :=
  let r := highlightBlockFn cfg ds.fmts (mkCtx texts ds.states i)
  let states := ds.states.set i r.state
  let states :=
    match r.prevOverride with
    | some v => if i = 0 then states else states.set (i - 1) v
    | none => states
  ({ states := states, fmts := r.formats },
    if r.markPrevDirty then (if i = 0 then none else some (i - 1)) else none)

/-- `addDirtyBlock`: append the block if it is not already pending. -/
def addDirtyBlock (q : List Nat) (b : Nat) : List Nat :=
  if b ∈ q then q else q ++ [b]

/-- `reHighlightDirtyBlocks`: process the queue front-to-back; each
processed block is removed only after its rehighlight, so a block
re-enqueued during processing joins the same drain.  Returns the final
document state, the remaining queue (when fuel runs out) and the log of
processed block indices, in order. -/
def reHighlightDirtyBlocks (cfg : Config) (texts : List (List Char)) :
    Nat → DocSt → List Nat → List Nat → DocSt × List Nat × List Nat
  | 0, ds, q, log => (ds, q, log)
  | fuel + 1, ds, q, log =>
    match q with
    | [] => (ds, [], log)
    | b :: rest =>
      let r := rehighlightOne cfg texts ds b
      let q' :=
        match r.2 with
        | some j => addDirtyBlock (b :: rest) j
        | none => b :: rest
      reHighlightDirtyBlocks cfg texts fuel r.1 (q'.drop 1) (log ++ [b])

/-! ### The `WhileRes` projections used by the scanner lemmas -/

/-- The out-of-bounds flag of a `WhileRes`. -/
def WhileRes.oobFlag : WhileRes → Bool
  | .done st => st.oob
  | .letterAt _ _ st => st.oob

/-- When the inner loop stops on a letter, its position is in bounds. -/
def WhileRes.posOk (len : Int) : WhileRes → Prop
  | .done _ => True
  | .letterAt i _ _ => 0 ≤ i ∧ i < len

/-! ### Concrete fixtures for the test-case theorems -/

/-- The standard host configuration: default font size `12`, fixed font
size `10`. -/
def cfgStd : Config := {}

/-- The format table right after `initTextFormats`. -/
def fmtsStd : Int → QTextCharFormat := initTextFormats cfgStd

/-- The three-line fenced code block document of the spec's test. -/
def docC3 : List (List Char) := ["```cpp".toList, "int x = 1;".toList, "```".toList]

/-- Classification of `docC3`'s three lines in order, threading states and
the format table. -/
def r31 : LineResult := highlightBlockFn cfgStd fmtsStd (mkCtx docC3 [-1, -1, -1] 0)

def r32 : LineResult := highlightBlockFn cfgStd r31.formats (mkCtx docC3 [r31.state, -1, -1] 1)

def r33 : LineResult :=
  highlightBlockFn cfgStd r32.formats (mkCtx docC3 [r31.state, r32.state, -1] 2)

/-- The two-line setext document of the spec's test. -/
def docTitle : List (List Char) := ["Title".toList, "===".toList]

/-- A two-line document whose first line is itself an ATX heading. -/
def docH2 : List (List Char) := ["## X".toList, "===".toList]

def ctxTitle0 : Ctx := mkCtx docTitle [-1, -1] 0

def ctxAtx : Ctx := mkCtx ["# Title".toList] [-1] 0

def ctxJs : Ctx := mkCtx ["```js".toList, "x".toList] [HighlighterState.CodeJs, -1] 1

def ctxCpp1 : Ctx := mkCtx ["```cpp".toList, "x".toList] [HighlighterState.CodeCpp, -1] 1

def ctxCB1 : Ctx := mkCtx ["```".toList, "x".toList] [HighlighterState.CodeBlock, -1] 1

def ctxCmtA : Ctx := mkCtx ["<!-- x -->".toList] [-1] 0

def ctxCmtB : Ctx := mkCtx ["<!-- x".toList] [-1] 0

def ctxCmtC : Ctx := mkCtx ["a".toList, "x -->".toList] [HighlighterState.Comment, -1] 1


/-! ### Basic lemmas about `setFormat` -/

theorem qSetFormatAux_length (f : QTextCharFormat) (s e : Int) :
    ∀ (i : Int) (l : List QTextCharFormat), (qSetFormatAux f s e i l).length = l.length := by
  intro i l
  induction l generalizing i with
  | nil => rfl
  | cons g rest ih => simp [qSetFormatAux, ih]

theorem qSetFormat_length (p : List QTextCharFormat) (st c : Int) (f : QTextCharFormat) :
    (qSetFormat p st c f).length = p.length := by
  unfold qSetFormat
  split
  · rfl
  · exact qSetFormatAux_length f st (st + c) 0 p

theorem qSetFormatAux_get? (f : QTextCharFormat) (s e : Int) :
    ∀ (l : List QTextCharFormat) (i : Int) (j : Nat),
    (qSetFormatAux f s e i l).get? j =
      if s ≤ i + j ∧ i + j < e ∧ j < l.length then some f else l.get? j := by
  intro l
  induction l with
  | nil => intro i j; simp [qSetFormatAux]
  | cons g rest ih =>
    intro i j
    cases j with
    | zero =>
      simp only [qSetFormatAux, List.get?, Nat.cast_zero, add_zero, List.length_cons]
      split_ifs with h1 h2 h2 <;> first | rfl | omega
    | succ j' =>
      simp only [qSetFormatAux, List.get?, List.length_cons]
      rw [ih (i + 1) j']
      refine if_congr ?_ rfl rfl
      push_cast
      omega

theorem qSetFormat_get? (p : List QTextCharFormat) (st c : Int) (f : QTextCharFormat) (j : Nat) :
    (qSetFormat p st c f).get? j =
      if 0 ≤ st ∧ st < (p.length : Int) ∧ st ≤ (j : Int) ∧ (j : Int) < st + c ∧ j < p.length
      then some f else p.get? j := by
  unfold qSetFormat
  split
  · rw [if_neg]; omega
  · rw [qSetFormatAux_get? f st (st + c) p 0 j]
    refine if_congr ?_ rfl rfl
    omega

theorem qSetFormat_full (p : List QTextCharFormat) (f : QTextCharFormat) :
    qSetFormat p 0 (p.length : Int) f = List.replicate p.length f := by
  apply List.ext_get?_iff.mpr
  intro j
  rw [qSetFormat_get?]
  by_cases h : j < p.length
  · rw [if_pos (by omega), List.get?_eq_getElem?, List.getElem?_replicate, if_pos h]
  · rw [if_neg (by omega), List.get?_eq_getElem?, List.get?_eq_getElem?,
      List.getElem?_eq_none (by omega), List.getElem?_eq_none (by simpa using h)]

/-- Invariant preservation through a left fold. -/
theorem foldl_invariant {α β : Type} (P : α → Prop) (f : α → β → α) (l : List β) (a : α)
    (h0 : P a) (hstep : ∀ x b, b ∈ l → P x → P (f x b)) : P (l.foldl f a) := by
  induction l generalizing a with
  | nil => exact h0
  | cons b bs ih =>
    exact ih (f a b) (hstep a b (by simp) h0) (fun x c hc hx => hstep x c (by simp [hc]) hx)

/-! ### Paint-length preservation and format-table independence of states -/

theorem setHeadingStyles_length (fmts : Int → QTextCharFormat) (state : Int)
    (format : QTextCharFormat) (m : RMatch) (cg : Nat) (p : List QTextCharFormat) :
    (setHeadingStyles fmts state format m cg p).length = p.length := by
  simp only [setHeadingStyles]
  split_ifs <;> simp [qSetFormat_length]

theorem applyRuleMatch_length (fmts : Int → QTextCharFormat) (r : HighlightingRule)
    (state : Int) (p : List QTextCharFormat) (m : RMatch) :
    (applyRuleMatch fmts r state p m).length = p.length := by
  simp only [applyRuleMatch]
  split_ifs <;> simp [qSetFormat_length, setHeadingStyles_length]

theorem applyRule_length (fmts : Int → QTextCharFormat) (text : List Char)
    (st : Int × List QTextCharFormat) (r : HighlightingRule) :
    (applyRule fmts text st r).2.length = st.2.length := by
  simp only [applyRule]
  split_ifs with h h2
  · rfl
  · exact foldl_invariant (fun p => p.length = st.2.length) (applyRuleMatch fmts r r.state)
      (globalMatches r.pattern text) st.2 rfl
      (fun x b _ hx => by
        show (applyRuleMatch fmts r r.state x b).length = st.2.length
        rw [applyRuleMatch_length]; exact hx)
  · exact foldl_invariant (fun p => p.length = st.2.length) (applyRuleMatch fmts r st.1)
      (globalMatches r.pattern text) st.2 rfl
      (fun x b _ hx => by
        show (applyRuleMatch fmts r st.1 x b).length = st.2.length
        rw [applyRuleMatch_length]; exact hx)

theorem highlightAdditionalRules_length (fmts : Int → QTextCharFormat)
    (rules : List HighlightingRule) (text : List Char) (st : Int × List QTextCharFormat) :
    (highlightAdditionalRules fmts rules text st).2.length = st.2.length := by
  simp only [highlightAdditionalRules]
  exact foldl_invariant (fun x => x.2.length = st.2.length) (applyRule fmts text) rules st rfl
    (fun x r _ hx => by
      show (applyRule fmts text x r).2.length = st.2.length
      rw [applyRule_length]; exact hx)

theorem highlightHeadline_length (fmts : Int → QTextCharFormat) (t pt nt : List Char)
    (ps : Int) (st : Int × List QTextCharFormat) :
    (highlightHeadline fmts t pt nt ps st).paint.length = st.2.length := by
  simp only [highlightHeadline]
  split_ifs <;> simp [qSetFormat_length]

theorem highlightCommentBlock_length (fmts : Int → QTextCharFormat) (ps : Int)
    (t : List Char) (st : Int × List QTextCharFormat) :
    (highlightCommentBlock fmts ps t st).2.length = st.2.length := by
  simp only [highlightCommentBlock]
  split_ifs <;> simp [qSetFormat_length]

theorem runTextRules_length (cfg : Config) (fmts : Int → QTextCharFormat) (ctx : Ctx) :
    (runTextRules cfg fmts ctx).1.2.length = ctx.text.length := by
  simp only [runTextRules]
  split
  · rw [highlightAdditionalRules_length]
    rw [show ((highlightHeadline fmts ctx.text ctx.prevText ctx.nextText ctx.prevState
        (highlightAdditionalRules fmts (highlightingRulesPre cfg) ctx.text
          (HighlighterState.NoState, List.replicate ctx.text.length {}))).state,
        (highlightHeadline fmts ctx.text ctx.prevText ctx.nextText ctx.prevState
        (highlightAdditionalRules fmts (highlightingRulesPre cfg) ctx.text
          (HighlighterState.NoState, List.replicate ctx.text.length {}))).paint).2 =
        (highlightHeadline fmts ctx.text ctx.prevText ctx.nextText ctx.prevState
        (highlightAdditionalRules fmts (highlightingRulesPre cfg) ctx.text
          (HighlighterState.NoState, List.replicate ctx.text.length {}))).paint from rfl]
    rw [highlightHeadline_length, highlightAdditionalRules_length]
    simp
  · simp

theorem applyRule_fst (fmts fmts' : Int → QTextCharFormat) (text : List Char)
    (r : HighlightingRule) (s : Int) (p p' : List QTextCharFormat) :
    (applyRule fmts text (s, p) r).1 = (applyRule fmts' text (s, p') r).1 := by
  simp only [applyRule]
  split_ifs <;> rfl

theorem highlightAdditionalRules_fst (fmts fmts' : Int → QTextCharFormat)
    (rules : List HighlightingRule) (text : List Char) :
    ∀ (s : Int) (p p' : List QTextCharFormat),
    (highlightAdditionalRules fmts rules text (s, p)).1 =
      (highlightAdditionalRules fmts' rules text (s, p')).1 := by
  induction rules with
  | nil => intros; rfl
  | cons r rest ih =>
    intro s p p'
    show (highlightAdditionalRules fmts rest text (applyRule fmts text (s, p) r)).1 =
      (highlightAdditionalRules fmts' rest text (applyRule fmts' text (s, p') r)).1
    have e1 : applyRule fmts text (s, p) r =
        ((applyRule fmts text (s, p) r).1, (applyRule fmts text (s, p) r).2) := rfl
    have e2 : applyRule fmts' text (s, p') r =
        ((applyRule fmts' text (s, p') r).1, (applyRule fmts' text (s, p') r).2) := rfl
    rw [e1, e2, ← applyRule_fst fmts fmts' text r s p p']
    exact ih _ _ _

theorem highlightHeadline_parts (fmts fmts' : Int → QTextCharFormat) (t pt nt : List Char)
    (ps : Int) (s : Int) (p p' : List QTextCharFormat) :
    (highlightHeadline fmts t pt nt ps (s, p)).state =
      (highlightHeadline fmts' t pt nt ps (s, p')).state ∧
    (highlightHeadline fmts t pt nt ps (s, p)).prevOverride =
      (highlightHeadline fmts' t pt nt ps (s, p')).prevOverride ∧
    (highlightHeadline fmts t pt nt ps (s, p)).markPrevDirty =
      (highlightHeadline fmts' t pt nt ps (s, p')).markPrevDirty := by
  simp only [highlightHeadline]
  split_ifs <;> exact ⟨rfl, rfl, rfl⟩

theorem highlightCommentBlock_fst (fmts fmts' : Int → QTextCharFormat) (ps : Int)
    (t : List Char) (s : Int) (p p' : List QTextCharFormat) :
    (highlightCommentBlock fmts ps t (s, p)).1 = (highlightCommentBlock fmts' ps t (s, p')).1 := by
  simp only [highlightCommentBlock]
  split_ifs <;> rfl

/-! ### Idempotence machinery: the format table is mutated only on fence lines -/

theorem runTextRules_parts (cfg : Config) (fmts fmts' : Int → QTextCharFormat) (ctx : Ctx) :
    (runTextRules cfg fmts ctx).1.1 = (runTextRules cfg fmts' ctx).1.1 ∧
    (runTextRules cfg fmts ctx).2 = (runTextRules cfg fmts' ctx).2 := by
  simp only [runTextRules]
  split
  case isTrue h =>
    set st0 : Int × List QTextCharFormat :=
      (HighlighterState.NoState, List.replicate ctx.text.length {}) with hst0
    have hA : (highlightAdditionalRules fmts (highlightingRulesPre cfg) ctx.text st0).1 =
        (highlightAdditionalRules fmts' (highlightingRulesPre cfg) ctx.text st0).1 :=
      highlightAdditionalRules_fst fmts fmts' _ ctx.text _ _ _
    have eA : highlightAdditionalRules fmts (highlightingRulesPre cfg) ctx.text st0 =
        ((highlightAdditionalRules fmts (highlightingRulesPre cfg) ctx.text st0).1,
         (highlightAdditionalRules fmts (highlightingRulesPre cfg) ctx.text st0).2) := rfl
    have eA' : highlightAdditionalRules fmts' (highlightingRulesPre cfg) ctx.text st0 =
        ((highlightAdditionalRules fmts' (highlightingRulesPre cfg) ctx.text st0).1,
         (highlightAdditionalRules fmts' (highlightingRulesPre cfg) ctx.text st0).2) := rfl
    rw [eA, eA', ← hA]
    have hH := highlightHeadline_parts fmts fmts' ctx.text ctx.prevText ctx.nextText
      ctx.prevState (highlightAdditionalRules fmts (highlightingRulesPre cfg) ctx.text st0).1
      (highlightAdditionalRules fmts (highlightingRulesPre cfg) ctx.text st0).2
      (highlightAdditionalRules fmts' (highlightingRulesPre cfg) ctx.text st0).2
    refine ⟨?_, ?_⟩
    · rw [hH.1]
      exact highlightAdditionalRules_fst fmts fmts' _ ctx.text _ _ _
    · exact congrArg₂ Prod.mk hH.2.1 hH.2.2
  case isFalse h => exact ⟨rfl, rfl⟩

theorem highlightBlockFn_formats (cfg : Config) (fmts : Int → QTextCharFormat) (ctx : Ctx) :
    (highlightBlockFn cfg fmts ctx).formats =
      if qStarts ("```".toList) ctx.text = true then codeBlockUpdateMasked fmts else fmts := by
  simp only [highlightBlockFn, runBlockPhases, highlightCodeBlock]
  split_ifs <;> rfl

theorem codeBlockUpdateMasked_idem (fmts : Int → QTextCharFormat) :
    codeBlockUpdateMasked (codeBlockUpdateMasked fmts) = codeBlockUpdateMasked fmts := by
  funext s
  simp only [codeBlockUpdateMasked]
  split_ifs with h <;> rfl

theorem highlightCodeBlock_fence_paint (G : Int → QTextCharFormat) (ps : Int) (T : List Char)
    (st : Int × List QTextCharFormat) (hf : qStarts ("```".toList) T = true)
    (hlen : st.2.length = T.length) :
    (highlightCodeBlock G ps T st).1.2 =
      List.replicate T.length ((codeBlockUpdateMasked G) HighlighterState.MaskedSyntax) := by
  unfold highlightCodeBlock
  rw [if_pos hf]
  show qSetFormat st.2 0 (T.length : Int) ((codeBlockUpdateMasked G) HighlighterState.MaskedSyntax) = _
  rw [← hlen, qSetFormat_full]

theorem highlightCodeBlock_fence_fst (G G' : Int → QTextCharFormat) (ps : Int) (T : List Char)
    (s : Int) (p p' : List QTextCharFormat) (hf : qStarts ("```".toList) T = true) :
    (highlightCodeBlock G ps T (s, p)).1.1 = (highlightCodeBlock G' ps T (s, p')).1.1 := by
  unfold highlightCodeBlock
  rw [if_pos hf, if_pos hf]

theorem highlightCodeBlock_fence_formats (G : Int → QTextCharFormat) (ps : Int) (T : List Char)
    (st : Int × List QTextCharFormat) (hf : qStarts ("```".toList) T = true) :
    (highlightCodeBlock G ps T st).2.1 = codeBlockUpdateMasked G := by
  unfold highlightCodeBlock
  rw [if_pos hf]

theorem highlightBlockFn_idem_pair (cfg : Config) (fmts : Int → QTextCharFormat) (ctx : Ctx) :
    (highlightBlockFn cfg (highlightBlockFn cfg fmts ctx).formats ctx).paint =
      (highlightBlockFn cfg fmts ctx).paint ∧
    (highlightBlockFn cfg (highlightBlockFn cfg fmts ctx).formats ctx).state =
      (highlightBlockFn cfg fmts ctx).state := by
  have hfm := highlightBlockFn_formats cfg fmts ctx
  by_cases hf : qStarts ("```".toList) ctx.text = true
  · rw [if_pos hf] at hfm
    rw [hfm]
    have hparts := runTextRules_parts cfg fmts (codeBlockUpdateMasked fmts) ctx
    have h1 : (runTextRules cfg fmts ctx).1.1 =
        (runTextRules cfg (codeBlockUpdateMasked fmts) ctx).1.1 := hparts.1
    have hl1 : (runTextRules cfg fmts ctx).1.2.length = ctx.text.length :=
      runTextRules_length cfg fmts ctx
    have hl1' : (runTextRules cfg (codeBlockUpdateMasked fmts) ctx).1.2.length =
        ctx.text.length := runTextRules_length cfg (codeBlockUpdateMasked fmts) ctx
    have h2 : (highlightCommentBlock fmts ctx.prevState ctx.text
          (runTextRules cfg fmts ctx).1).1 =
        (highlightCommentBlock (codeBlockUpdateMasked fmts) ctx.prevState ctx.text
          (runTextRules cfg (codeBlockUpdateMasked fmts) ctx).1).1 := by
      rw [show (runTextRules cfg fmts ctx).1 =
          ((runTextRules cfg fmts ctx).1.1, (runTextRules cfg fmts ctx).1.2) from rfl,
        show (runTextRules cfg (codeBlockUpdateMasked fmts) ctx).1 =
          ((runTextRules cfg (codeBlockUpdateMasked fmts) ctx).1.1,
           (runTextRules cfg (codeBlockUpdateMasked fmts) ctx).1.2) from rfl, ← h1]
      exact highlightCommentBlock_fst fmts (codeBlockUpdateMasked fmts) ctx.prevState
        ctx.text _ _ _
    have hl2 : (highlightCommentBlock fmts ctx.prevState ctx.text
        (runTextRules cfg fmts ctx).1).2.length = ctx.text.length := by
      rw [highlightCommentBlock_length]; exact hl1
    have hl2' : (highlightCommentBlock (codeBlockUpdateMasked fmts) ctx.prevState ctx.text
        (runTextRules cfg (codeBlockUpdateMasked fmts) ctx).1).2.length = ctx.text.length := by
      rw [highlightCommentBlock_length]; exact hl1'
    -- after the code phase both runs hold the same (state, paint) pair and table
    have hcodeEq : highlightCodeBlock fmts ctx.prevState ctx.text
          (highlightCommentBlock fmts ctx.prevState ctx.text (runTextRules cfg fmts ctx).1) =
        highlightCodeBlock (codeBlockUpdateMasked fmts) ctx.prevState ctx.text
          (highlightCommentBlock (codeBlockUpdateMasked fmts) ctx.prevState ctx.text
            (runTextRules cfg (codeBlockUpdateMasked fmts) ctx).1) := by
      have hp : (highlightCodeBlock fmts ctx.prevState ctx.text
            (highlightCommentBlock fmts ctx.prevState ctx.text
              (runTextRules cfg fmts ctx).1)).1.2 =
          (highlightCodeBlock (codeBlockUpdateMasked fmts) ctx.prevState ctx.text
            (highlightCommentBlock (codeBlockUpdateMasked fmts) ctx.prevState ctx.text
              (runTextRules cfg (codeBlockUpdateMasked fmts) ctx).1)).1.2 := by
        rw [highlightCodeBlock_fence_paint _ _ _ _ hf hl2,
          highlightCodeBlock_fence_paint _ _ _ _ hf hl2', codeBlockUpdateMasked_idem]
      have hs : (highlightCodeBlock fmts ctx.prevState ctx.text
            (highlightCommentBlock fmts ctx.prevState ctx.text
              (runTextRules cfg fmts ctx).1)).1.1 =
          (highlightCodeBlock (codeBlockUpdateMasked fmts) ctx.prevState ctx.text
            (highlightCommentBlock (codeBlockUpdateMasked fmts) ctx.prevState ctx.text
              (runTextRules cfg (codeBlockUpdateMasked fmts) ctx).1)).1.1 := by
        rw [show (highlightCommentBlock fmts ctx.prevState ctx.text
              (runTextRules cfg fmts ctx).1) =
            ((highlightCommentBlock fmts ctx.prevState ctx.text
              (runTextRules cfg fmts ctx).1).1,
             (highlightCommentBlock fmts ctx.prevState ctx.text
              (runTextRules cfg fmts ctx).1).2) from rfl,
          show (highlightCommentBlock (codeBlockUpdateMasked fmts) ctx.prevState ctx.text
              (runTextRules cfg (codeBlockUpdateMasked fmts) ctx).1) =
            ((highlightCommentBlock (codeBlockUpdateMasked fmts) ctx.prevState ctx.text
              (runTextRules cfg (codeBlockUpdateMasked fmts) ctx).1).1,
             (highlightCommentBlock (codeBlockUpdateMasked fmts) ctx.prevState ctx.text
              (runTextRules cfg (codeBlockUpdateMasked fmts) ctx).1).2) from rfl, ← h2]
        exact highlightCodeBlock_fence_fst fmts (codeBlockUpdateMasked fmts)
          ctx.prevState ctx.text _ _ _ hf
      have hfm2 : (highlightCodeBlock fmts ctx.prevState ctx.text
            (highlightCommentBlock fmts ctx.prevState ctx.text
              (runTextRules cfg fmts ctx).1)).2.1 =
          (highlightCodeBlock (codeBlockUpdateMasked fmts) ctx.prevState ctx.text
            (highlightCommentBlock (codeBlockUpdateMasked fmts) ctx.prevState ctx.text
              (runTextRules cfg (codeBlockUpdateMasked fmts) ctx).1)).2.1 := by
        rw [highlightCodeBlock_fence_formats _ _ _ _ hf,
          highlightCodeBlock_fence_formats _ _ _ _ hf, codeBlockUpdateMasked_idem]
      have hoob : (highlightCodeBlock fmts ctx.prevState ctx.text
            (highlightCommentBlock fmts ctx.prevState ctx.text
              (runTextRules cfg fmts ctx).1)).2.2 =
          (highlightCodeBlock (codeBlockUpdateMasked fmts) ctx.prevState ctx.text
            (highlightCommentBlock (codeBlockUpdateMasked fmts) ctx.prevState ctx.text
              (runTextRules cfg (codeBlockUpdateMasked fmts) ctx).1)).2.2 := by
        unfold highlightCodeBlock
        rw [if_pos hf, if_pos hf]
      simp only [Prod.ext_iff]
      exact ⟨⟨hs, hp⟩, hfm2, hoob⟩
    have hfinal : (runBlockPhases (codeBlockUpdateMasked fmts) ctx
        (runTextRules cfg (codeBlockUpdateMasked fmts) ctx).1).1 =
        (runBlockPhases fmts ctx (runTextRules cfg fmts ctx).1).1 := by
      show highlightFrontmatterBlock
          (highlightCodeBlock (codeBlockUpdateMasked fmts) ctx.prevState ctx.text
            (highlightCommentBlock (codeBlockUpdateMasked fmts) ctx.prevState ctx.text
              (runTextRules cfg (codeBlockUpdateMasked fmts) ctx).1)).2.1
          ctx.prevState ctx.firstText ctx.text ctx.isFirstBlock
          (highlightCodeBlock (codeBlockUpdateMasked fmts) ctx.prevState ctx.text
            (highlightCommentBlock (codeBlockUpdateMasked fmts) ctx.prevState ctx.text
              (runTextRules cfg (codeBlockUpdateMasked fmts) ctx).1)).1 =
        highlightFrontmatterBlock
          (highlightCodeBlock fmts ctx.prevState ctx.text
            (highlightCommentBlock fmts ctx.prevState ctx.text
              (runTextRules cfg fmts ctx).1)).2.1
          ctx.prevState ctx.firstText ctx.text ctx.isFirstBlock
          (highlightCodeBlock fmts ctx.prevState ctx.text
            (highlightCommentBlock fmts ctx.prevState ctx.text
              (runTextRules cfg fmts ctx).1)).1
      rw [hcodeEq]
    exact ⟨congrArg Prod.snd hfinal, congrArg Prod.fst hfinal⟩
  · rw [if_neg hf] at hfm
    rw [hfm]
    exact ⟨rfl, rfl⟩

/-! ### Bounded-access lemmas for the embedded-language scanner -/

theorem hsRead_in_bounds (text : List Char) (i : Int) (st : SyntaxSt)
    (h0 : 0 ≤ i) (h1 : i < (text.length : Int)) : (hsRead text i st).2 = st := by
  unfold hsRead
  rw [dif_pos ⟨h0, h1⟩]

theorem hsStringD_st_aux (text : List Char) :
    ∀ (n : Nat) (i cnt : Int) (st : SyntaxSt), ((text.length : Int) - i).toNat ≤ n → 0 ≤ i →
    (hsStringD text i cnt st).2.2 = st ∧ i ≤ (hsStringD text i cnt st).1 := by
  intro n
  induction n with
  | zero =>
    intro i cnt st hn h0
    rw [hsStringD, dif_neg (by omega)]
    exact ⟨rfl, le_refl i⟩
  | succ n ih =>
    intro i cnt st hn h0
    rw [hsStringD]
    split
    case isTrue h =>
      simp only
      rw [hsRead_in_bounds text i st h0 h]
      split_ifs with hq he
      · exact ⟨rfl, by omega⟩
      · exact ⟨rfl, by omega⟩
      · have := ih (i + 1) (cnt + 1) st (by omega) (by omega)
        exact ⟨this.1, by omega⟩
    case isFalse h => exact ⟨rfl, le_refl i⟩

theorem hsStringD_st (text : List Char) (i cnt : Int) (st : SyntaxSt) (h0 : 0 ≤ i) :
    (hsStringD text i cnt st).2.2 = st ∧ i ≤ (hsStringD text i cnt st).1 :=
  hsStringD_st_aux text ((text.length : Int) - i).toNat i cnt st (le_refl _) h0

theorem hsStringS_st_aux (text : List Char) :
    ∀ (n : Nat) (i cnt : Int) (st : SyntaxSt), ((text.length : Int) - i).toNat ≤ n → 0 ≤ i →
    (hsStringS text i cnt st).2.2 = st ∧ i ≤ (hsStringS text i cnt st).1 := by
  intro n
  induction n with
  | zero =>
    intro i cnt st hn h0
    rw [hsStringS, dif_neg (by omega)]
    exact ⟨rfl, le_refl i⟩
  | succ n ih =>
    intro i cnt st hn h0
    rw [hsStringS]
    split
    case isTrue h =>
      simp only
      rw [hsRead_in_bounds text i st h0 h]
      split_ifs with hq he
      · exact ⟨rfl, by omega⟩
      · exact ⟨rfl, le_refl i⟩
      · have := ih (i + 1) (cnt + 1) st (by omega) (by omega)
        exact ⟨this.1, by omega⟩
    case isFalse h => exact ⟨rfl, le_refl i⟩

theorem hsStringS_st (text : List Char) (i cnt : Int) (st : SyntaxSt) (h0 : 0 ≤ i) :
    (hsStringS text i cnt st).2.2 = st ∧ i ≤ (hsStringS text i cnt st).1 :=
  hsStringS_st_aux text ((text.length : Int) - i).toNat i cnt st (le_refl _) h0

theorem hsWhile_ok (text : List Char) :
    ∀ (fuel : Nat) (i : Int) (f : QTextCharFormat) (st : SyntaxSt),
    0 ≤ i → i < (text.length : Int) →
    (hsWhile text fuel i f st).oobFlag = st.oob ∧
    (hsWhile text fuel i f st).posOk (text.length : Int) := by
  intro fuel
  induction fuel with
  | zero => intro i f st h0 h1; exact ⟨rfl, trivial⟩
  | succ fuel ih =>
    intro i f st h0 h1
    simp only [hsWhile]
    rw [hsRead_in_bounds text i st h0 h1]
    split_ifs
    all_goals simp only [WhileRes.oobFlag, WhileRes.posOk]
    all_goals try rw [hsRead_in_bounds text (i + 1) st (by omega) (by omega)]
    all_goals try rw [hsRead_in_bounds text (i - 1) st (by omega) (by omega)]
    all_goals try rw [(hsStringD_st text (i + 1) 1 st (by omega)).1]
    all_goals try rw [(hsStringS_st text (i + 1) 1 st (by omega)).1]
    all_goals try contradiction
    all_goals try exact ⟨trivial, trivial⟩
    all_goals try exact ⟨rfl, trivial⟩
    all_goals try exact ⟨trivial, h0, h1⟩
    all_goals try exact ih (i + 1) f st (by omega) (by omega)
    all_goals try exact ih _ _ _ (by omega) (by omega)
    all_goals try
      (have hge := (hsStringD_st text (i + 1) 1 st (by omega)).2
       exact ih _ _ _ (by omega) (by omega))
    all_goals try
      (have hge := (hsStringS_st text (i + 1) 1 st (by omega)).2
       exact ih _ _ _ (by omega) (by omega))


theorem tokenPassStep_ok (text : List Char) (col : QColor)
    (acc : Int × QTextCharFormat × SyntaxSt) (tok : List Char) (h0 : 0 ≤ acc.1) :
    0 ≤ (tokenPassStep text col acc tok).1 ∧
    (tokenPassStep text col acc tok).2.2.oob = acc.2.2.oob := by
  simp only [tokenPassStep]
  split_ifs
  all_goals try rw [hsRead_in_bounds text (acc.1 + (tok.length : Int)) acc.2.2 (by omega) (by omega)]
  all_goals try rw [hsRead_in_bounds text (acc.1 - 1) acc.2.2 (by omega) (by omega)]
  all_goals try contradiction
  all_goals exact ⟨by omega, rfl⟩

theorem tokenPass_ok (text : List Char) (toks : List (List Char)) (col : QColor)
    (i : Int) (f : QTextCharFormat) (st : SyntaxSt) (h0 : 0 ≤ i) :
    0 ≤ (tokenPass text toks col i f st).1 ∧
    (tokenPass text toks col i f st).2.2.oob = st.oob := by
  unfold tokenPass
  exact foldl_invariant (fun a => 0 ≤ a.1 ∧ a.2.2.oob = st.oob) (tokenPassStep text col)
    toks (i, f, st) ⟨h0, rfl⟩
    (fun a tok _ ha => by
      have := tokenPassStep_ok text col a tok ha.1
      exact ⟨this.1, by rw [this.2, ha.2]⟩)

theorem hsOuter_oob (text : List Char) (types keywords preproc : List (List Char)) :
    ∀ (fuel : Nat) (i : Int) (f : QTextCharFormat) (st : SyntaxSt), 0 ≤ i →
    (hsOuter text types keywords preproc fuel i f st).oob = st.oob := by
  intro fuel
  induction fuel with
  | zero => intro i f st h0; rfl
  | succ fuel ih =>
    intro i f st h0
    simp only [hsOuter]
    split
    case isTrue hlt =>
      have hw := hsWhile_ok text (fuel + 1) i f st h0 hlt
      cases hres : hsWhile text (fuel + 1) i f st with
      | done st' =>
        rw [hres] at hw
        exact hw.1
      | letterAt i' f' st' =>
        rw [hres] at hw
        simp only [WhileRes.oobFlag, WhileRes.posOk] at hw
        obtain ⟨hoob, hi0, hilt⟩ := hw
        have t1 := tokenPass_ok text types qDarkBlue i' f' st' hi0
        have t2 := tokenPass_ok text keywords qCyan (tokenPass text types qDarkBlue i' f' st').1
          (tokenPass text types qDarkBlue i' f' st').2.1
          (tokenPass text types qDarkBlue i' f' st').2.2 t1.1
        have t3 := tokenPass_ok text preproc qMagenta
          (tokenPass text keywords qCyan (tokenPass text types qDarkBlue i' f' st').1
            (tokenPass text types qDarkBlue i' f' st').2.1
            (tokenPass text types qDarkBlue i' f' st').2.2).1
          (tokenPass text keywords qCyan (tokenPass text types qDarkBlue i' f' st').1
            (tokenPass text types qDarkBlue i' f' st').2.1
            (tokenPass text types qDarkBlue i' f' st').2.2).2.1
          (tokenPass text keywords qCyan (tokenPass text types qDarkBlue i' f' st').1
            (tokenPass text types qDarkBlue i' f' st').2.1
            (tokenPass text types qDarkBlue i' f' st').2.2).2.2 t2.1
        rw [ih _ _ _ (by omega), t3.2, t2.2, t1.2]
        exact hoob
    case isFalse hge => rfl

theorem highlightSyntax_oob (fmts : Int → QTextCharFormat) (state : Int)
    (text : List Char) (paint : List QTextCharFormat) :
    (highlightSyntax fmts state text paint).oob = false := by
  unfold highlightSyntax
  split
  · rfl
  · rw [hsOuter_oob text _ _ _ _ 0 _ _ (by omega)]

theorem hsRead_fst (text : List Char) (i : Int) (st : SyntaxSt)
    (h0 : 0 ≤ i) (h1 : i < (text.length : Int)) :
    text.get? i.toNat = some ((hsRead text i st).1) := by
  unfold hsRead
  rw [dif_pos ⟨h0, h1⟩]
  exact List.get?_eq_get (by omega)

theorem hsStringD_unterminated_aux (text : List Char) :
    ∀ (n : Nat) (i cnt : Int) (st : SyntaxSt), ((text.length : Int) - i).toNat ≤ n →
    0 ≤ i → i + 2 ≤ (text.length : Int) →
    (∀ k : Nat, i ≤ (k : Int) → text.get? k ≠ some '"') →
    (hsStringD text i cnt st).2.1 = cnt + ((text.length : Int) - i) ∧
    (hsStringD text i cnt st).1 = (text.length : Int) - 1 := by
  intro n
  induction n with
  | zero => intro i cnt st hn h0 h2 hq; omega
  | succ n ih =>
    intro i cnt st hn h0 h2 hq
    rw [hsStringD, dif_pos (show i < (text.length : Int) by omega)]
    simp only
    have hc : ¬((hsRead text i st).1 == '"') = true := by
      intro hbe
      exact hq i.toNat (by omega)
        (by rw [hsRead_fst text i st h0 (by omega)]
            exact congrArg some (eq_of_beq hbe))
    rw [if_neg hc]
    by_cases hend : i + 2 ≥ (text.length : Int)
    · rw [if_pos hend]
      rw [hsRead_in_bounds text i st h0 (by omega)]
      constructor <;> simp <;> omega
    · rw [if_neg hend]
      rw [hsRead_in_bounds text i st h0 (by omega)]
      have := ih (i + 1) (cnt + 1) st (by omega) (by omega) (by omega)
        (fun k hk => hq k (by omega))
      exact ⟨by rw [this.1]; ring, this.2⟩

theorem hsStringD_unterminated (text : List Char) (i cnt : Int) (st : SyntaxSt)
    (h0 : 0 ≤ i) (h2 : i + 2 ≤ (text.length : Int))
    (hq : ∀ k : Nat, i ≤ (k : Int) → text.get? k ≠ some '"') :
    (hsStringD text i cnt st).2.1 = cnt + ((text.length : Int) - i) ∧
    (hsStringD text i cnt st).1 = (text.length : Int) - 1 :=
  hsStringD_unterminated_aux text ((text.length : Int) - i).toNat i cnt st (le_refl _) h0 h2 hq

theorem hsWhile_unterminated_string (text : List Char) (fuel : Nat) (pos : Int)
    (f : QTextCharFormat) (st : SyntaxSt)
    (h0 : 0 ≤ pos) (hlen : pos + 3 ≤ (text.length : Int))
    (hq : text.get? pos.toNat = some '"')
    (hnq : ∀ k : Nat, pos + 1 ≤ (k : Int) → text.get? k ≠ some '"') :
    hsWhile text (fuel + 1) pos f st = WhileRes.done
      ⟨qSetFormat st.paint pos ((text.length : Int) - pos)
        { f with foreground := some qDarkGreen }, st.oob⟩ := by
  have hfst : (hsRead text pos st).1 = '"' := by
    have := hsRead_fst text pos st h0 (by omega)
    rw [hq] at this
    exact (Option.some.inj this).symm
  simp only [hsWhile]
  rw [hsRead_in_bounds text pos st h0 (by omega), hfst]
  rw [if_neg (by decide), if_neg (by decide), if_neg (by decide), if_pos (by decide)]
  rw [if_neg (show ¬(pos + 1 + 1 ≥ (text.length : Int)) by omega)]
  have hst := (hsStringD_st text (pos + 1) 1 st (by omega)).1
  have hD := hsStringD_unterminated text (pos + 1) 1 st (by omega) (by omega)
    (fun k hk => hnq k (by omega))
  have hcnt : (hsStringD text (pos + 1) 1 st).2.1 = (text.length : Int) - pos := by
    rw [hD.1]; ring
  rw [hst, hcnt, hD.2]
  rw [if_pos (show (text.length : Int) - 1 + 1 ≥ (text.length : Int) by omega)]

/-! ### Which block states each phase can produce, and dirty-queue lemmas -/

theorem applyRule_state_cases (fmts : Int → QTextCharFormat) (text : List Char)
    (st : Int × List QTextCharFormat) (r : HighlightingRule) :
    (applyRule fmts text st r).1 = st.1 ∨
    (r.useStateAsCurrentBlockState = true ∧ (applyRule fmts text st r).1 = r.state) := by
  simp only [applyRule]
  split_ifs with h1 h2
  · left; rfl
  · right; exact ⟨(Bool.and_eq_true_iff.mp h2).2, rfl⟩
  · left; rfl

theorem highlightAdditionalRules_state_cases (fmts : Int → QTextCharFormat)
    (rules : List HighlightingRule) (text : List Char) (st : Int × List QTextCharFormat) :
    (highlightAdditionalRules fmts rules text st).1 = st.1 ∨
    ∃ r ∈ rules, r.useStateAsCurrentBlockState = true ∧
      (highlightAdditionalRules fmts rules text st).1 = r.state := by
  simp only [highlightAdditionalRules]
  refine foldl_invariant (fun x => x.1 = st.1 ∨
    ∃ r ∈ rules, r.useStateAsCurrentBlockState = true ∧ x.1 = r.state)
    (applyRule fmts text) rules st (Or.inl rfl) ?_
  intro x b hb hx
  show (applyRule fmts text x b).1 = st.1 ∨ _
  rcases applyRule_state_cases fmts text x b with h | ⟨hu, h⟩
  · rcases hx with hx | ⟨r, hr, hu', hx⟩
    · exact Or.inl (h.trans hx)
    · exact Or.inr ⟨r, hr, hu', h.trans hx⟩
  · exact Or.inr ⟨b, hb, hu, h⟩

theorem rulesAfter_no_state : (highlightingRulesAfter.all
    fun r => ! r.useStateAsCurrentBlockState) = true := by decide

theorem rulesPre_state_list (cfg : Config) : ((highlightingRulesPre cfg).all
    fun r => ! r.useStateAsCurrentBlockState || r.state == HighlighterState.List) = true := rfl

theorem rulesAfter_state_eq (fmts : Int → QTextCharFormat) (text : List Char)
    (st : Int × List QTextCharFormat) :
    (highlightAdditionalRules fmts highlightingRulesAfter text st).1 = st.1 := by
  rcases highlightAdditionalRules_state_cases fmts highlightingRulesAfter text st with
    h | ⟨r, hr, hu, _⟩
  · exact h
  · have := List.all_eq_true.mp rulesAfter_no_state r hr
    rw [hu] at this
    exact absurd this (by decide)

theorem rulesPre_state_cases (cfg : Config) (fmts : Int → QTextCharFormat) (text : List Char)
    (st : Int × List QTextCharFormat) :
    (highlightAdditionalRules fmts (highlightingRulesPre cfg) text st).1 = st.1 ∨
    (highlightAdditionalRules fmts (highlightingRulesPre cfg) text st).1 =
      HighlighterState.List := by
  rcases highlightAdditionalRules_state_cases fmts (highlightingRulesPre cfg) text st with
    h | ⟨r, hr, hu, h⟩
  · exact Or.inl h
  · have := List.all_eq_true.mp (rulesPre_state_list cfg) r hr
    rw [hu] at this
    simp only [Bool.not_true, Bool.false_or] at this
    exact Or.inr (h.trans (beq_iff_eq.mp this))

theorem headingFound_head (t : List Char) (h : headingFoundFn t = true) :
    ∃ rest, t = '#' :: rest := by
  cases t with
  | nil => exact absurd h (by decide)
  | cons c cs =>
    refine ⟨cs, ?_⟩
    simp only [headingFoundFn, Bool.or_eq_true] at h
    have hc : c = '#' := by
      rcases h with ((((h | h) | h) | h) | h) | h <;>
      · simp only [qStarts, Bool.and_eq_true, beq_iff_eq] at h
        exact h.1.symm
    rw [hc]

theorem hashCount_bounds (t : List Char) (h : headingFoundFn t = true) :
    1 ≤ hashCount t ∧ hashCount t ≤ 6 := by
  obtain ⟨rest, rfl⟩ := headingFound_head t h
  constructor
  · simp [hashCount, List.count_cons]
  · calc hashCount ('#' :: rest) ≤ (('#' :: rest).take 6).length :=
        List.count_le_length _ _
      _ ≤ 6 := by simp [List.length_take]

theorem highlightHeadline_state_cases (fmts : Int → QTextCharFormat) (t pt nt : List Char)
    (ps : Int) (st : Int × List QTextCharFormat) :
    (highlightHeadline fmts t pt nt ps st).state = st.1 ∨
    (HighlighterState.H1 ≤ (highlightHeadline fmts t pt nt ps st).state ∧
     (highlightHeadline fmts t pt nt ps st).state ≤ HighlighterState.H6) ∨
    (highlightHeadline fmts t pt nt ps st).state = HighlighterState.HeadlineEnd := by
  simp only [highlightHeadline]
  split_ifs with h1 h2 h3 h4 h5 h6 h7 h8
  all_goals try first
    | (left; rfl)
    | (right; right; rfl)
  all_goals refine Or.inr (Or.inl ?_)
  all_goals try have hb := hashCount_bounds t h1
  all_goals simp only [HighlighterState.H1, HighlighterState.H2, HighlighterState.H6]
  all_goals constructor <;> omega

theorem highlightCommentBlock_state_cases (fmts : Int → QTextCharFormat) (ps : Int)
    (t : List Char) (st : Int × List QTextCharFormat) :
    (highlightCommentBlock fmts ps t st).1 = st.1 ∨
    (highlightCommentBlock fmts ps t st).1 = HighlighterState.Comment := by
  simp only [highlightCommentBlock]
  split_ifs <;> first | (left; rfl) | (right; rfl)

theorem highlightCodeBlock_state_cases (fmts : Int → QTextCharFormat) (ps : Int)
    (t : List Char) (st : Int × List QTextCharFormat) :
    (highlightCodeBlock fmts ps t st).1.1 = st.1 ∨
    (highlightCodeBlock fmts ps t st).1.1 = HighlighterState.CodeBlock ∨
    (highlightCodeBlock fmts ps t st).1.1 = HighlighterState.CodeBlockEnd ∨
    (highlightCodeBlock fmts ps t st).1.1 = HighlighterState.CodeCpp ∨
    (highlightCodeBlock fmts ps t st).1.1 = HighlighterState.CodeJs := by
  simp only [highlightCodeBlock]
  split_ifs <;> simp

theorem highlightFrontmatterBlock_state_cases (fmts : Int → QTextCharFormat) (ps : Int)
    (ft t : List Char) (fb : Bool) (st : Int × List QTextCharFormat) :
    (highlightFrontmatterBlock fmts ps ft t fb st).1 = st.1 ∨
    (highlightFrontmatterBlock fmts ps ft t fb st).1 = HighlighterState.FrontmatterBlock ∨
    (highlightFrontmatterBlock fmts ps ft t fb st).1 = HighlighterState.FrontmatterBlockEnd := by
  simp only [highlightFrontmatterBlock]
  split_ifs <;> simp

theorem highlightFrontmatterBlock_skip (fmts : Int → QTextCharFormat) (ps : Int)
    (ft t : List Char) (fb : Bool) (st : Int × List QTextCharFormat)
    (h : ft ≠ "---".toList) :
    highlightFrontmatterBlock fmts ps ft t fb st = st := by
  unfold highlightFrontmatterBlock
  have hb : (ft != "---".toList) = true := by
    simp only [bne_iff_ne, ne_eq]
    simpa using h
  rw [if_pos hb]

theorem runTextRules_state_cases (cfg : Config) (fmts : Int → QTextCharFormat) (ctx : Ctx) :
    (runTextRules cfg fmts ctx).1.1 = HighlighterState.NoState ∨
    (runTextRules cfg fmts ctx).1.1 = HighlighterState.List ∨
    (HighlighterState.H1 ≤ (runTextRules cfg fmts ctx).1.1 ∧
     (runTextRules cfg fmts ctx).1.1 ≤ HighlighterState.H6) ∨
    (runTextRules cfg fmts ctx).1.1 = HighlighterState.HeadlineEnd := by
  simp only [runTextRules]
  split
  case isFalse h => left; rfl
  case isTrue h =>
    set stA := highlightAdditionalRules fmts (highlightingRulesPre cfg) ctx.text
      (HighlighterState.NoState, List.replicate ctx.text.length ({} : QTextCharFormat)) with hstA
    simp only []
    rw [rulesAfter_state_eq]
    rcases highlightHeadline_state_cases fmts ctx.text ctx.prevText ctx.nextText
        ctx.prevState stA with hh | hh | hh
    · rw [show ((highlightHeadline fmts ctx.text ctx.prevText ctx.nextText ctx.prevState
          stA).state, (highlightHeadline fmts ctx.text ctx.prevText ctx.nextText
          ctx.prevState stA).paint).1 = (highlightHeadline fmts ctx.text ctx.prevText
          ctx.nextText ctx.prevState stA).state from rfl, hh]
      rcases rulesPre_state_cases cfg fmts ctx.text
          (HighlighterState.NoState, List.replicate ctx.text.length ({} : QTextCharFormat))
        with hp | hp
      · left; rw [← hstA] at hp; exact hp
      · right; left; rw [← hstA] at hp; exact hp
    · right; right; left; exact hh
    · right; right; right; exact hh

/-- Every state `highlightBlock` can commit, as an interval/value list. -/
theorem highlightBlockFn_state_cases (cfg : Config) (fmts : Int → QTextCharFormat) (ctx : Ctx) :
    (highlightBlockFn cfg fmts ctx).state = HighlighterState.NoState ∨
    (highlightBlockFn cfg fmts ctx).state = HighlighterState.List ∨
    (HighlighterState.H1 ≤ (highlightBlockFn cfg fmts ctx).state ∧
     (highlightBlockFn cfg fmts ctx).state ≤ HighlighterState.H6) ∨
    (highlightBlockFn cfg fmts ctx).state = HighlighterState.HeadlineEnd ∨
    (highlightBlockFn cfg fmts ctx).state = HighlighterState.Comment ∨
    (highlightBlockFn cfg fmts ctx).state = HighlighterState.CodeBlock ∨
    (highlightBlockFn cfg fmts ctx).state = HighlighterState.CodeBlockEnd ∨
    (highlightBlockFn cfg fmts ctx).state = HighlighterState.CodeCpp ∨
    (highlightBlockFn cfg fmts ctx).state = HighlighterState.CodeJs ∨
    (highlightBlockFn cfg fmts ctx).state = HighlighterState.FrontmatterBlock ∨
    (highlightBlockFn cfg fmts ctx).state = HighlighterState.FrontmatterBlockEnd := by
  have e : (highlightBlockFn cfg fmts ctx).state =
      (highlightFrontmatterBlock
        (highlightCodeBlock fmts ctx.prevState ctx.text
          (highlightCommentBlock fmts ctx.prevState ctx.text (runTextRules cfg fmts ctx).1)).2.1
        ctx.prevState ctx.firstText ctx.text ctx.isFirstBlock
        (highlightCodeBlock fmts ctx.prevState ctx.text
          (highlightCommentBlock fmts ctx.prevState ctx.text
            (runTextRules cfg fmts ctx).1)).1).1 := rfl
  rw [e]
  rcases highlightFrontmatterBlock_state_cases
      (highlightCodeBlock fmts ctx.prevState ctx.text
        (highlightCommentBlock fmts ctx.prevState ctx.text (runTextRules cfg fmts ctx).1)).2.1
      ctx.prevState ctx.firstText ctx.text ctx.isFirstBlock
      (highlightCodeBlock fmts ctx.prevState ctx.text
        (highlightCommentBlock fmts ctx.prevState ctx.text
          (runTextRules cfg fmts ctx).1)).1 with hf | hf | hf
  · rw [hf]
    rcases highlightCodeBlock_state_cases fmts ctx.prevState ctx.text
        (highlightCommentBlock fmts ctx.prevState ctx.text (runTextRules cfg fmts ctx).1)
      with hc | hc | hc | hc | hc
    · rw [hc]
      rcases highlightCommentBlock_state_cases fmts ctx.prevState ctx.text
          (runTextRules cfg fmts ctx).1 with hm | hm
      · rw [hm]
        rcases runTextRules_state_cases cfg fmts ctx with hr | hr | hr | hr
        · exact Or.inl hr
        · exact Or.inr (Or.inl hr)
        · exact Or.inr (Or.inr (Or.inl hr))
        · exact Or.inr (Or.inr (Or.inr (Or.inl hr)))
      · exact Or.inr (Or.inr (Or.inr (Or.inr (Or.inl hm))))
    · exact Or.inr (Or.inr (Or.inr (Or.inr (Or.inr (Or.inl hc)))))
    · exact Or.inr (Or.inr (Or.inr (Or.inr (Or.inr (Or.inr (Or.inl hc))))))
    · exact Or.inr (Or.inr (Or.inr (Or.inr (Or.inr (Or.inr (Or.inr (Or.inl hc)))))))
    · exact Or.inr (Or.inr (Or.inr (Or.inr (Or.inr (Or.inr (Or.inr (Or.inr (Or.inl hc))))))))
  · exact Or.inr (Or.inr (Or.inr (Or.inr (Or.inr (Or.inr (Or.inr (Or.inr (Or.inr (Or.inl hf)))))))))
  · exact Or.inr (Or.inr (Or.inr (Or.inr (Or.inr (Or.inr (Or.inr (Or.inr (Or.inr (Or.inr hf)))))))))

theorem highlightHeadline_mark (fmts : Int → QTextCharFormat) (t pt nt : List Char)
    (ps : Int) (st : Int × List QTextCharFormat) :
    (highlightHeadline fmts t pt nt ps st).markPrevDirty = true → pt ≠ [] := by
  simp only [highlightHeadline]
  split_ifs with h1 h2 h3 h4 h5 h6 h7 h8
  case pos => intro hm; exact absurd hm (by simp)
  case pos =>
    intro _ hpt
    have hlen := of_decide_eq_true (Bool.and_eq_true_iff.mp h3).2
    rw [hpt] at hlen
    simp at hlen
  case neg => intro hm; exact absurd hm (by simp)
  case pos =>
    intro _ hpt
    have hlen := of_decide_eq_true (Bool.and_eq_true_iff.mp h5).2
    rw [hpt] at hlen
    simp at hlen
  all_goals exact fun hm => absurd hm (by simp)

theorem highlightBlockFn_mark (cfg : Config) (fmts : Int → QTextCharFormat) (ctx : Ctx) :
    (highlightBlockFn cfg fmts ctx).markPrevDirty = true → ctx.prevText ≠ [] := by
  have e : (highlightBlockFn cfg fmts ctx).markPrevDirty = (runTextRules cfg fmts ctx).2.2 := rfl
  rw [e]
  simp only [runTextRules]
  split
  case isTrue h =>
    exact highlightHeadline_mark fmts ctx.text ctx.prevText ctx.nextText ctx.prevState _
  case isFalse h => exact fun hm => absurd hm (by simp)

/-! Dirty-queue lemmas -/

theorem addDirtyBlock_mem (q : List Nat) (b : Nat) : b ∈ addDirtyBlock q b := by
  unfold addDirtyBlock
  split_ifs with h
  · exact h
  · simp

theorem addDirtyBlock_idem (q : List Nat) (b : Nat) :
    addDirtyBlock (addDirtyBlock q b) b = addDirtyBlock q b := by
  rw [show addDirtyBlock (addDirtyBlock q b) b =
    (if b ∈ addDirtyBlock q b then addDirtyBlock q b else addDirtyBlock q b ++ [b]) from rfl]
  rw [if_pos (addDirtyBlock_mem q b)]

theorem addDirtyBlock_count (q : List Nat) (b j : Nat) (h : q.count j ≤ 1) :
    (addDirtyBlock q b).count j ≤ 1 := by
  unfold addDirtyBlock
  split_ifs with hb
  · exact h
  · rw [List.count_append]
    by_cases hj : j = b
    · subst hj
      have h0 : q.count j = 0 := List.count_eq_zero.mpr hb
      have h1 : List.count j [j] = 1 := by simp
      omega
    · have h1 : List.count j [b] = 0 := by simp [List.count_eq_zero, hj]
      omega

theorem rehighlightOne_add (cfg : Config) (texts : List (List Char)) (ds : DocSt) (b : Nat) :
    (rehighlightOne cfg texts ds b).2 = none ∨
    (1 ≤ b ∧ (rehighlightOne cfg texts ds b).2 = some (b - 1)) := by
  unfold rehighlightOne
  simp only []
  split_ifs with hm hz
  · subst hz; left; rfl
  · right
    refine ⟨?_, rfl⟩
    omega
  · left; rfl

theorem reHighlightDirtyBlocks_count_of_lt (cfg : Config) (texts : List (List Char)) (j : Nat) :
    ∀ (fuel : Nat) (ds : DocSt) (q log : List Nat), (∀ b ∈ q, b < j) →
    ((reHighlightDirtyBlocks cfg texts fuel ds q log).2.2).count j = log.count j := by
  intro fuel
  induction fuel with
  | zero => intro ds q log hq; rfl
  | succ fuel ih =>
    intro ds q log hq
    rw [reHighlightDirtyBlocks.eq_def]
    cases q with
    | nil => rfl
    | cons b rest =>
      simp only
      have hb : b < j := hq b (by simp)
      have hnext : ∀ x ∈ (match (rehighlightOne cfg texts ds b).2 with
          | some k => addDirtyBlock (b :: rest) k
          | none => b :: rest).drop 1, x < j := by
        rcases rehighlightOne_add cfg texts ds b with ha | ⟨hb1, ha⟩
        · rw [ha]
          simp only [List.drop_succ_cons, List.drop_zero]
          intro x hx
          exact hq x (List.mem_cons_of_mem b hx)
        · rw [ha]
          simp only
          unfold addDirtyBlock
          split_ifs with hmem
          · simp only [List.drop_succ_cons, List.drop_zero]
            intro x hx
            exact hq x (List.mem_cons_of_mem b hx)
          · rw [show (b :: rest) ++ [b - 1] = b :: (rest ++ [b - 1]) from rfl]
            simp only [List.drop_succ_cons, List.drop_zero]
            intro x hx
            rcases List.mem_append.mp hx with hx3 | hx3
            · exact hq x (List.mem_cons_of_mem b hx3)
            · have : x = b - 1 := by simpa using hx3
              omega
      rw [ih _ _ _ hnext]
      rw [List.count_append]
      have : List.count j [b] = 0 := by simp [List.count_eq_zero]; omega
      omega

theorem reHighlightDirtyBlocks_single (cfg : Config) (texts : List (List Char))
    (fuel : Nat) (ds : DocSt) (j : Nat) (hfuel : 1 ≤ fuel) :
    ((reHighlightDirtyBlocks cfg texts fuel ds [j] []).2.2).count j = 1 := by
  obtain ⟨fuel', rfl⟩ : ∃ k, fuel = k + 1 := ⟨fuel - 1, by omega⟩
  rw [reHighlightDirtyBlocks.eq_def]
  simp only
  have hnext : ∀ x ∈ (match (rehighlightOne cfg texts ds j).2 with
      | some k => addDirtyBlock [j] k
      | none => [j]).drop 1, x < j := by
    rcases rehighlightOne_add cfg texts ds j with ha | ⟨hj1, ha⟩
    · rw [ha]; intro x hx; simp at hx
    · rw [ha]
      simp only
      unfold addDirtyBlock
      split_ifs with hmem
      · simp only [List.drop_succ_cons, List.drop_zero]
        intro x hx
        simp at hx
      · rw [show ([j] : List Nat) ++ [j - 1] = j :: [j - 1] from rfl]
        simp only [List.drop_succ_cons, List.drop_zero]
        intro x hx
        have : x = j - 1 := by simpa using hx
        omega
  rw [reHighlightDirtyBlocks_count_of_lt cfg texts j fuel' _ _ _ hnext]
  simp

theorem hashCount_le_length (t : List Char) : hashCount t ≤ t.length :=
  le_trans (List.count_le_length _ _) (by simp [List.length_take])

/-- C1: ATX headings, amended.  For a line starting with one to six hash
characters followed by a space (hashes counted within the first six
characters), the headline phase sets the state to the matching H-level and
paints every position before the hash count with the masked-syntax format
at the H-level point size, and every position from the hash count on
(including the separating space) with the H-level format itself. -/
theorem c1_atx_heading_spans (fmts : Int → QTextCharFormat) (t pt nt : List Char) (ps s0 : Int)
    (p0 : List QTextCharFormat) (hlen : p0.length = t.length)
    (hhead : headingFoundFn t = true) :
    (highlightHeadline fmts t pt nt ps (s0, p0)).state =
      HighlighterState.H1 + (hashCount t : Int) - 1 ∧
    (∀ j : Nat, j < t.length →
      (highlightHeadline fmts t pt nt ps (s0, p0)).paint.get? j =
        some (if j < hashCount t
          then { fmts HighlighterState.MaskedSyntax with fontPointSize :=
                  (fmts (HighlighterState.H1 + (hashCount t : Int) - 1)).fontPointSize }
          else fmts (HighlighterState.H1 + (hashCount t : Int) - 1))) := by
  have hb := hashCount_bounds t hhead
  have hcle := hashCount_le_length t
  unfold highlightHeadline
  rw [if_pos hhead]
  simp only
  refine ⟨trivial, ?_⟩
  intro j hj
  rw [qSetFormat_get?, qSetFormat_length, qSetFormat_get?]
  split_ifs <;> first | rfl | (exfalso; omega)

theorem hasOnlyEq_not_heading (t : List Char) (hall : hasOnlyHeadChars t '=' = true) :
    ¬ headingFoundFn t = true := by
  intro hh
  obtain ⟨rest, rfl⟩ := headingFound_head t hh
  simp only [hasOnlyHeadChars, List.all_cons, Bool.and_eq_true] at hall
  exact absurd hall.2.1 (by decide)

/-- C2: setext '='-underlines, amended.  For a non-empty line of only '='
characters whose previous line is non-empty with carried state H1 or
NoState: the line's state becomes HeadlineEnd, the whole line is painted
masked syntax at the H1 point size, the previous block's recorded state is
overridden to H1, and the previous block is marked dirty for
reclassification.  That reclassification is a fresh classification of the
previous line and is not guaranteed to produce a full-text H1 span. -/
theorem c2_setext_headline_end (fmts : Int → QTextCharFormat) (t pt nt : List Char) (ps s0 : Int)
    (p0 : List QTextCharFormat) (hlen : p0.length = t.length)
    (hall : hasOnlyHeadChars t '=' = true)
    (hps : ps = HighlighterState.H1 ∨ ps = HighlighterState.NoState)
    (hpt : pt ≠ []) :
    (highlightHeadline fmts t pt nt ps (s0, p0)).state = HighlighterState.HeadlineEnd ∧
    (highlightHeadline fmts t pt nt ps (s0, p0)).prevOverride = some HighlighterState.H1 ∧
    (highlightHeadline fmts t pt nt ps (s0, p0)).markPrevDirty = true ∧
    (highlightHeadline fmts t pt nt ps (s0, p0)).paint =
      List.replicate t.length { fmts HighlighterState.MaskedSyntax with
        fontPointSize := (fmts HighlighterState.H1).fontPointSize } := by
  have hnothead := hasOnlyEq_not_heading t hall
  have hplen : pt.length > 0 := List.length_pos.mpr hpt
  have hcond : ((ps == HighlighterState.H1 || ps == HighlighterState.NoState) &&
      decide (pt.length > 0)) = true := by
    rcases hps with rfl | rfl <;> simp [hplen]
  unfold highlightHeadline
  rw [if_neg hnothead, if_pos hall, if_pos hcond]
  refine ⟨rfl, rfl, rfl, ?_⟩
  show qSetFormat p0 0 (t.length : Int) _ = _
  rw [← hlen, qSetFormat_full, hlen]

theorem c3g (G : Int → QTextCharFormat) (ps : Int) (T : List Char)
    (st : Int × List QTextCharFormat) (hf : qStarts ("```".toList) T = true) :
    (ps ≠ HighlighterState.CodeBlock ∧ ps < 200 →
      (highlightCodeBlock G ps T st).1.1 =
        (if T.drop 3 == "cpp".toList then HighlighterState.CodeCpp
         else if T.drop 3 == "js".toList then HighlighterState.CodeJs
         else HighlighterState.CodeBlock)) ∧
    (ps = HighlighterState.CodeBlock ∨ ps ≥ 200 →
      (highlightCodeBlock G ps T st).1.1 = HighlighterState.CodeBlockEnd) := by
  constructor
  · intro hps
    simp only [highlightCodeBlock]
    rw [if_pos hf, if_pos hps]
    show (if T.drop 3 == "cpp".toList then HighlighterState.CodeCpp
         else if T.drop 3 == "js".toList then HighlighterState.CodeJs
         else if T == "```".toList then HighlighterState.CodeBlock
         else HighlighterState.CodeBlock) = _
    split_ifs <;> rfl
  · intro hps
    have hneg : ¬(ps ≠ HighlighterState.CodeBlock ∧ ps < 200) := by
      rcases hps with rfl | h
      · intro hc; exact hc.1 rfl
      · intro hc; omega
    simp only [highlightCodeBlock]
    rw [if_pos hf, if_neg hneg, if_pos hps]

theorem c4g (G : Int → QTextCharFormat) (t : List Char)
    (st : Int × List QTextCharFormat) (hf : qStarts ("```".toList) t = false) :
    highlightCodeBlock G HighlighterState.CodeJs t st = (st, G, false) := by
  simp only [highlightCodeBlock]
  rw [if_neg (by rw [hf]; simp), if_neg (by decide)]

theorem no_quote_tail (text : List Char) (pos : Int) (hp : 0 ≤ pos)
    (h : ((text.drop (pos.toNat + 1)).all fun c => !(c == '"')) = true) :
    ∀ k : Nat, pos + 1 ≤ (k : Int) → text.get? k ≠ some '"' := by
  intro k hk hcontra
  have hk2 : pos.toNat + 1 ≤ k := by omega
  have h1 : text.get? (pos.toNat + 1 + (k - (pos.toNat + 1))) = some '"' := by
    rw [show pos.toNat + 1 + (k - (pos.toNat + 1)) = k by omega]
    exact hcontra
  rw [← List.get?_drop] at h1
  have hmem : '"' ∈ text.drop (pos.toNat + 1) := List.get?_mem h1
  have h2 := List.all_eq_true.mp h _ hmem
  simp at h2

/-- C6: comment blocks.  First, a trimmed line starting with the open
marker and containing the close marker is an inline comment: the phase
leaves state and paint unchanged.  Second, a trimmed line starting with
the open marker without the close marker, or a non-open line while the
previous state is Comment that does not end with the close marker, gets
state Comment.  Third, a non-open line ending with the close marker while
the previous state is Comment is painted with the comment format but keeps
the carried state, and the full classification of such a line never
commits state Comment. -/
theorem c6_comment_block_cases (cfg : Config) (fmts : Int → QTextCharFormat) (ps : Int)
    (t : List Char) (st : Int × List QTextCharFormat) (ctx : Ctx) :
    (qStarts ("<!--".toList) (qTrimmed t) = true →
     qContains ("-->".toList) (qTrimmed t) = true →
     highlightCommentBlock fmts ps t st = st) ∧
    ((qStarts ("<!--".toList) (qTrimmed t) = true ∧
        qContains ("-->".toList) (qTrimmed t) = false) ∨
      (qStarts ("<!--".toList) (qTrimmed t) = false ∧ ps = HighlighterState.Comment ∧
        qEnds ("-->".toList) (qTrimmed t) = false) →
     (highlightCommentBlock fmts ps t st).1 = HighlighterState.Comment) ∧
    (qStarts ("<!--".toList) (qTrimmed t) = false → ps = HighlighterState.Comment →
     qEnds ("-->".toList) (qTrimmed t) = true →
     highlightCommentBlock fmts ps t st =
       (st.1, qSetFormat st.2 0 ((qTrimmed t).length : Int)
         (fmts HighlighterState.Comment))) ∧
    (qStarts ("<!--".toList) (qTrimmed ctx.text) = false →
     ctx.prevState = HighlighterState.Comment →
     qEnds ("-->".toList) (qTrimmed ctx.text) = true →
     (highlightBlockFn cfg fmts ctx).state ≠ HighlighterState.Comment) := by
  refine ⟨?_, ?_, ?_, ?_⟩
  · intro h1 h2
    simp only [highlightCommentBlock]
    rw [if_pos (by rw [h1, h2]; rfl)]
  · intro hcase
    rcases hcase with ⟨h1, h2⟩ | ⟨h1, rfl, h3⟩
    · simp only [highlightCommentBlock]
      rw [if_neg (by rw [h1, h2]; simp), if_pos (by rw [h1]; simp)]
    · simp only [highlightCommentBlock]
      rw [if_neg (by rw [h1]; simp), if_pos (by rw [h1, h3]; simp)]
  · intro h1 h2 h3
    simp only [highlightCommentBlock]
    rw [if_neg (by rw [h1]; simp), if_neg (by rw [h1, h3]; simp), if_pos h3]
  · intro h1 h2 h3
    have hcm : (highlightCommentBlock fmts ctx.prevState ctx.text
        (runTextRules cfg fmts ctx).1).1 = (runTextRules cfg fmts ctx).1.1 := by
      simp only [highlightCommentBlock]
      rw [if_neg (by rw [h1]; simp), if_neg (by rw [h1, h3]; simp), if_pos h3]
    have e : (highlightBlockFn cfg fmts ctx).state =
        (highlightFrontmatterBlock
          (highlightCodeBlock fmts ctx.prevState ctx.text
            (highlightCommentBlock fmts ctx.prevState ctx.text
              (runTextRules cfg fmts ctx).1)).2.1
          ctx.prevState ctx.firstText ctx.text ctx.isFirstBlock
          (highlightCodeBlock fmts ctx.prevState ctx.text
            (highlightCommentBlock fmts ctx.prevState ctx.text
              (runTextRules cfg fmts ctx).1)).1).1 := rfl
    rw [e]
    rcases highlightFrontmatterBlock_state_cases
        (highlightCodeBlock fmts ctx.prevState ctx.text
          (highlightCommentBlock fmts ctx.prevState ctx.text
            (runTextRules cfg fmts ctx).1)).2.1
        ctx.prevState ctx.firstText ctx.text ctx.isFirstBlock
        (highlightCodeBlock fmts ctx.prevState ctx.text
          (highlightCommentBlock fmts ctx.prevState ctx.text
            (runTextRules cfg fmts ctx).1)).1 with hf | hf | hf
    · rw [hf]
      rcases highlightCodeBlock_state_cases fmts ctx.prevState ctx.text
          (highlightCommentBlock fmts ctx.prevState ctx.text (runTextRules cfg fmts ctx).1)
        with hc | hc | hc | hc | hc
      · rw [hc, hcm]
        rcases runTextRules_state_cases cfg fmts ctx with hr | hr | hr | hr
        · rw [hr]; decide
        · rw [hr]; decide
        · simp only [HighlighterState.H1, HighlighterState.H6,
            HighlighterState.Comment] at hr ⊢
          omega
        · rw [hr]; decide
      · rw [hc]; decide
      · rw [hc]; decide
      · rw [hc]; decide
      · rw [hc]; decide
    · rw [hf]; decide
    · rw [hf]; decide

/-- C7: front matter is gated on the first block.  If the document's
first block text is not exactly the front-matter delimiter, the
front-matter phase is the identity on every line, and no classification
ever commits FrontmatterBlock or FrontmatterBlockEnd, regardless of later
delimiter lines. -/
theorem c7_frontmatter_first_block_gate (cfg : Config) (fmts : Int → QTextCharFormat) (ctx : Ctx)
    (h : ctx.firstText ≠ "---".toList) :
    (∀ (ps : Int) (t : List Char) (fb : Bool) (st : Int × List QTextCharFormat),
      highlightFrontmatterBlock fmts ps ctx.firstText t fb st = st) ∧
    (highlightBlockFn cfg fmts ctx).state ≠ HighlighterState.FrontmatterBlock ∧
    (highlightBlockFn cfg fmts ctx).state ≠ HighlighterState.FrontmatterBlockEnd := by
  refine ⟨fun ps t fb st => highlightFrontmatterBlock_skip fmts ps ctx.firstText t fb st h, ?_⟩
  have e : (highlightBlockFn cfg fmts ctx).state =
      (highlightFrontmatterBlock
        (highlightCodeBlock fmts ctx.prevState ctx.text
          (highlightCommentBlock fmts ctx.prevState ctx.text
            (runTextRules cfg fmts ctx).1)).2.1
        ctx.prevState ctx.firstText ctx.text ctx.isFirstBlock
        (highlightCodeBlock fmts ctx.prevState ctx.text
          (highlightCommentBlock fmts ctx.prevState ctx.text
            (runTextRules cfg fmts ctx).1)).1).1 := rfl
  rw [e, highlightFrontmatterBlock_skip _ _ _ _ _ _ h]
  rcases highlightCodeBlock_state_cases fmts ctx.prevState ctx.text
      (highlightCommentBlock fmts ctx.prevState ctx.text (runTextRules cfg fmts ctx).1)
    with hc | hc | hc | hc | hc
  · rw [hc]
    rcases highlightCommentBlock_state_cases fmts ctx.prevState ctx.text
        (runTextRules cfg fmts ctx).1 with hm | hm
    · rw [hm]
      rcases runTextRules_state_cases cfg fmts ctx with hr | hr | hr | hr
      · rw [hr]; exact ⟨by decide, by decide⟩
      · rw [hr]; exact ⟨by decide, by decide⟩
      · simp only [HighlighterState.H1, HighlighterState.H6,
          HighlighterState.FrontmatterBlock, HighlighterState.FrontmatterBlockEnd] at hr ⊢
        omega
      · rw [hr]; exact ⟨by decide, by decide⟩
    · rw [hm]; exact ⟨by decide, by decide⟩
  · rw [hc]; exact ⟨by decide, by decide⟩
  · rw [hc]; exact ⟨by decide, by decide⟩
  · rw [hc]; exact ⟨by decide, by decide⟩
  · rw [hc]; exact ⟨by decide, by decide⟩

/-- C8: dirty-queue behaviour, amended.  Marking a block dirty is
idempotent, and marking the same block three times starting from an empty
queue leaves exactly one pending entry; draining a single-element queue
reclassifies that block exactly once.  The per-drain exactly-once property
fails for longer queues because a processed block can be re-enqueued into
the same drain (see the counterexample). -/
theorem c8_dirty_queue_amended (cfg : Config) (texts : List (List Char)) (fuel : Nat)
    (ds : DocSt) (j : Nat) (q : List Nat) (b : Nat) (hfuel : 1 ≤ fuel) :
    (b ∈ q → addDirtyBlock q b = q) ∧
    addDirtyBlock (addDirtyBlock (addDirtyBlock [] j) j) j = [j] ∧
    ((reHighlightDirtyBlocks cfg texts fuel ds [j] []).2.2).count j = 1 := by
  refine ⟨fun hb => by simp [addDirtyBlock, hb], by simp [addDirtyBlock],
    reHighlightDirtyBlocks_single cfg texts fuel ds j hfuel⟩

/-- C10: fence lines mutate the shared format table.  Classifying a line
starting with a code fence sets the MaskedSyntax entry's point size to the
CodeBlock entry's point size, leaves every other entry unchanged, and the
change persists in the table the call returns; classifying a non-fence
line leaves the table untouched. -/
theorem c10_masked_format_mutation (cfg : Config) (fmts : Int → QTextCharFormat) (ctx : Ctx) :
    (qStarts ("```".toList) ctx.text = true →
      (highlightBlockFn cfg fmts ctx).formats = codeBlockUpdateMasked fmts ∧
      (highlightBlockFn cfg fmts ctx).formats HighlighterState.MaskedSyntax =
        { fmts HighlighterState.MaskedSyntax with
          fontPointSize := (fmts HighlighterState.CodeBlock).fontPointSize } ∧
      ∀ s : Int, s ≠ HighlighterState.MaskedSyntax →
        (highlightBlockFn cfg fmts ctx).formats s = fmts s) ∧
    (qStarts ("```".toList) ctx.text = false →
      (highlightBlockFn cfg fmts ctx).formats = fmts) := by
  have hfm := highlightBlockFn_formats cfg fmts ctx
  constructor
  · intro hf
    rw [if_pos hf] at hfm
    refine ⟨hfm, ?_, ?_⟩
    · rw [hfm]
      simp only [codeBlockUpdateMasked]
      rw [if_pos trivial]
    · intro s hs
      rw [hfm]
      simp only [codeBlockUpdateMasked]
      rw [if_neg hs]
  · intro hf
    rw [if_neg (by rw [hf]; simp)] at hfm
    exact hfm

/-- C3: fence round-trip.  Concretely, classifying the three lines of
`docC3` in order yields CodeCpp with a fixed-size masked fence, a type
span over the keyword and a numeric-literal span over the digit, then
CodeBlockEnd.  In general a fence line whose previous state is not inside
code opens CodeCpp, CodeJs or CodeBlock according to the language tag, and
a fence line whose previous state is inside code (CodeBlock or at least
the embedded-language threshold 200) yields CodeBlockEnd. -/
theorem c3_fence_roundtrip :
    (r31.state = HighlighterState.CodeCpp ∧
     r31.paint = List.replicate 6 { fontPointSize := 10, foreground := some ⟨204, 204, 204⟩ } ∧
     (r32.paint.map (fun f => f.foreground)).take 3 = List.replicate 3 (some qDarkBlue) ∧
     (r32.paint.map (fun f => f.foreground)).get? 8 = some (some qDarkYellow) ∧
     r33.state = HighlighterState.CodeBlockEnd) ∧
    (∀ (G : Int → QTextCharFormat) (ps : Int) (T : List Char)
       (st : Int × List QTextCharFormat), qStarts ("```".toList) T = true →
      (ps ≠ HighlighterState.CodeBlock ∧ ps < 200 →
        (highlightCodeBlock G ps T st).1.1 =
          (if T.drop 3 == "cpp".toList then HighlighterState.CodeCpp
           else if T.drop 3 == "js".toList then HighlighterState.CodeJs
           else HighlighterState.CodeBlock)) ∧
      (ps = HighlighterState.CodeBlock ∨ ps ≥ 200 →
        (highlightCodeBlock G ps T st).1.1 = HighlighterState.CodeBlockEnd)) :=
  ⟨⟨by decide, by decide, by decide, by decide, by decide⟩,
   fun G ps T st hf => c3g G ps T st hf⟩

theorem c3_fence_roundtrip_witness :
    qStarts ("```".toList) ("```cpp".toList) = true ∧
    ((-1 : Int) ≠ HighlighterState.CodeBlock ∧ (-1 : Int) < 200) ∧
    (highlightCodeBlock fmtsStd (-1) ("```cpp".toList)
      ((-1 : Int), List.replicate 6 ({} : QTextCharFormat))).1.1 =
      (if ("```cpp".toList).drop 3 == "cpp".toList then HighlighterState.CodeCpp
       else if ("```cpp".toList).drop 3 == "js".toList then HighlighterState.CodeJs
       else HighlighterState.CodeBlock) :=
  ⟨by decide, by decide,
   (c3_fence_roundtrip.2 fmtsStd (-1) ("```cpp".toList)
     ((-1 : Int), List.replicate 6 ({} : QTextCharFormat)) (by decide)).1 (by decide)⟩

/-- C4: code-state inheritance.  A non-fence line whose previous state is
CodeBlock is painted as a code block and keeps CodeBlock, and one whose
previous state is CodeCpp is scanned and keeps CodeCpp; but a non-fence
line whose previous state is CodeJs is not inherited: the outer condition
of the inheritance branch tests only CodeBlock and CodeCpp, so the CodeJs
sub-branch is unreachable and the line is left with state NoState and no
code painting, contradicting the stated behaviour for CodeJs. -/
theorem c4_codejs_inheritance :
    ((highlightBlockFn cfgStd fmtsStd ctxJs).state = HighlighterState.NoState ∧
     (highlightBlockFn cfgStd fmtsStd ctxJs).paint = [{}] ∧
     (highlightBlockFn cfgStd fmtsStd ctxCpp1).state = HighlighterState.CodeCpp ∧
     (highlightBlockFn cfgStd fmtsStd ctxCB1).state = HighlighterState.CodeBlock ∧
     (highlightBlockFn cfgStd fmtsStd ctxCB1).paint = [fmtsStd HighlighterState.CodeBlock]) ∧
    HighlighterState.CodeJs ≥ 200 ∧
    HighlighterState.CodeJs ≠ HighlighterState.NoState ∧
    (∀ (G : Int → QTextCharFormat) (t : List Char) (st : Int × List QTextCharFormat),
      qStarts ("```".toList) t = false →
      highlightCodeBlock G HighlighterState.CodeJs t st = (st, G, false)) :=
  ⟨⟨by decide, by decide, by decide, by decide, by decide⟩, by decide, by decide,
   fun G t st hf => c4g G t st hf⟩

theorem c4_codejs_inheritance_witness :
    qStarts ("```".toList) ("x".toList) = false ∧
    highlightCodeBlock fmtsStd HighlighterState.CodeJs ("x".toList)
      (HighlighterState.NoState, List.replicate 1 ({} : QTextCharFormat)) =
      ((HighlighterState.NoState, List.replicate 1 ({} : QTextCharFormat)), fmtsStd, false) :=
  ⟨by decide, c4_codejs_inheritance.2.2.2 fmtsStd ("x".toList)
    (HighlighterState.NoState, List.replicate 1 ({} : QTextCharFormat)) (by decide)⟩

/-- C5: unterminated string literals, amended.  The embedded-language
scanner never reads out of bounds, and when an opening double quote at
position pos is never closed and at least two characters follow it
(pos + 3 at most the line length), the scan loop paints a string-literal
span from the quote to the end of the line.  When at most one character
follows the opening quote, the branch instead aborts without painting the
span (see the counterexample). -/
theorem c5_unterminated_string_span (fmts : Int → QTextCharFormat) (state : Int)
    (text : List Char) (paint : List QTextCharFormat) (fuel : Nat) (pos : Int)
    (f : QTextCharFormat) (st : SyntaxSt)
    (h0 : 0 ≤ pos) (hlen : pos + 3 ≤ (text.length : Int))
    (hq : text.get? pos.toNat = some '"')
    (hnq : ∀ k : Nat, pos + 1 ≤ (k : Int) → text.get? k ≠ some '"') :
    (highlightSyntax fmts state text paint).oob = false ∧
    hsWhile text (fuel + 1) pos f st = WhileRes.done
      ⟨qSetFormat st.paint pos ((text.length : Int) - pos)
        { f with foreground := some qDarkGreen }, st.oob⟩ :=
  ⟨highlightSyntax_oob fmts state text paint,
   hsWhile_unterminated_string text fuel pos f st h0 hlen hq hnq⟩

theorem c5_unterminated_string_span_witness :
    ((0 : Int) ≤ 8) ∧
    ((8 : Int) + 3 ≤ (("int x = \"un".toList).length : Int)) ∧
    ("int x = \"un".toList).get? (8 : Int).toNat = some '"' ∧
    ((highlightSyntax fmtsStd HighlighterState.CodeCpp ("int x = \"un".toList)
        (List.replicate 11 ({} : QTextCharFormat))).oob = false ∧
     hsWhile ("int x = \"un".toList) (0 + 1) 8 ({} : QTextCharFormat)
        ⟨List.replicate 11 ({} : QTextCharFormat), false⟩ = WhileRes.done
        ⟨qSetFormat (List.replicate 11 ({} : QTextCharFormat)) 8
          ((("int x = \"un".toList).length : Int) - 8)
          { ({} : QTextCharFormat) with foreground := some qDarkGreen }, false⟩) :=
  ⟨by decide, by decide, by decide,
   c5_unterminated_string_span fmtsStd HighlighterState.CodeCpp ("int x = \"un".toList)
     (List.replicate 11 ({} : QTextCharFormat)) 0 8 ({} : QTextCharFormat)
     ⟨List.replicate 11 ({} : QTextCharFormat), false⟩ (by decide) (by decide) (by decide)
     (no_quote_tail ("int x = \"un".toList) 8 (by decide) (by decide))⟩

/-- C9: classification is idempotent.  Classifying the same line twice in
succession with the same context yields the same per-character formats and
the same committed state both times (the format table resulting from the
first call is the one the second call sees). -/
theorem c9_classification_idempotent (cfg : Config) (fmts : Int → QTextCharFormat)
    (ctx : Ctx) :
    (highlightBlockFn cfg (highlightBlockFn cfg fmts ctx).formats ctx).paint =
      (highlightBlockFn cfg fmts ctx).paint ∧
    (highlightBlockFn cfg (highlightBlockFn cfg fmts ctx).formats ctx).state =
      (highlightBlockFn cfg fmts ctx).state :=
  highlightBlockFn_idem_pair cfg fmts ctx

theorem c1_atx_heading_spans_witness :
    (List.replicate 7 ({} : QTextCharFormat)).length = ("# Title".toList).length ∧
    headingFoundFn ("# Title".toList) = true ∧
    ((highlightHeadline fmtsStd ("# Title".toList) [] [] (-1)
        (-1, List.replicate 7 ({} : QTextCharFormat))).state =
      HighlighterState.H1 + (hashCount ("# Title".toList) : Int) - 1 ∧
     (∀ j : Nat, j < ("# Title".toList).length →
      (highlightHeadline fmtsStd ("# Title".toList) [] [] (-1)
        (-1, List.replicate 7 ({} : QTextCharFormat))).paint.get? j =
        some (if j < hashCount ("# Title".toList)
          then { fmtsStd HighlighterState.MaskedSyntax with fontPointSize :=
                  (fmtsStd (HighlighterState.H1 +
                    (hashCount ("# Title".toList) : Int) - 1)).fontPointSize }
          else fmtsStd (HighlighterState.H1 +
            (hashCount ("# Title".toList) : Int) - 1)))) :=
  ⟨by decide, by decide,
   c1_atx_heading_spans fmtsStd ("# Title".toList) [] [] (-1) (-1)
     (List.replicate 7 ({} : QTextCharFormat)) (by decide) (by decide)⟩

theorem c2_setext_headline_end_witness :
    (List.replicate 3 ({} : QTextCharFormat)).length = ("===".toList).length ∧
    hasOnlyHeadChars ("===".toList) '=' = true ∧
    (HighlighterState.NoState = HighlighterState.H1 ∨
      HighlighterState.NoState = HighlighterState.NoState) ∧
    ("Title".toList ≠ ([] : List Char)) ∧
    ((highlightHeadline fmtsStd ("===".toList) ("Title".toList) []
        HighlighterState.NoState
        (-1, List.replicate 3 ({} : QTextCharFormat))).state = HighlighterState.HeadlineEnd ∧
     (highlightHeadline fmtsStd ("===".toList) ("Title".toList) []
        HighlighterState.NoState
        (-1, List.replicate 3 ({} : QTextCharFormat))).prevOverride =
       some HighlighterState.H1 ∧
     (highlightHeadline fmtsStd ("===".toList) ("Title".toList) []
        HighlighterState.NoState
        (-1, List.replicate 3 ({} : QTextCharFormat))).markPrevDirty = true ∧
     (highlightHeadline fmtsStd ("===".toList) ("Title".toList) []
        HighlighterState.NoState
        (-1, List.replicate 3 ({} : QTextCharFormat))).paint =
       List.replicate ("===".toList).length { fmtsStd HighlighterState.MaskedSyntax with
         fontPointSize := (fmtsStd HighlighterState.H1).fontPointSize }) :=
  ⟨by decide, by decide, Or.inr rfl, by decide,
   c2_setext_headline_end fmtsStd ("===".toList) ("Title".toList) []
     HighlighterState.NoState (-1) (List.replicate 3 ({} : QTextCharFormat))
     (by decide) (by decide) (Or.inr rfl) (by decide)⟩

theorem c6_comment_block_cases_witness :
    qStarts ("<!--".toList) (qTrimmed ("<!-- x -->".toList)) = true ∧
    qContains ("-->".toList) (qTrimmed ("<!-- x -->".toList)) = true ∧
    highlightCommentBlock fmtsStd (-1) ("<!-- x -->".toList)
      ((-1 : Int), List.replicate 10 ({} : QTextCharFormat)) =
      ((-1 : Int), List.replicate 10 ({} : QTextCharFormat)) :=
  ⟨by decide, by decide,
   (c6_comment_block_cases cfgStd fmtsStd (-1) ("<!-- x -->".toList)
     ((-1 : Int), List.replicate 10 ({} : QTextCharFormat)) ctxCmtA).1
     (by decide) (by decide)⟩

theorem c7_frontmatter_first_block_gate_witness :
    ctxTitle0.firstText ≠ "---".toList ∧
    ((∀ (ps : Int) (t : List Char) (fb : Bool) (st : Int × List QTextCharFormat),
       highlightFrontmatterBlock fmtsStd ps ctxTitle0.firstText t fb st = st) ∧
     (highlightBlockFn cfgStd fmtsStd ctxTitle0).state ≠
       HighlighterState.FrontmatterBlock ∧
     (highlightBlockFn cfgStd fmtsStd ctxTitle0).state ≠
       HighlighterState.FrontmatterBlockEnd) :=
  ⟨by decide, c7_frontmatter_first_block_gate cfgStd fmtsStd ctxTitle0 (by decide)⟩

theorem c8_dirty_queue_amended_witness :
    (1 ≤ 10) ∧
    (((0 : Nat) ∈ ([0] : List Nat) → addDirtyBlock [0] 0 = [0]) ∧
     addDirtyBlock (addDirtyBlock (addDirtyBlock [] 0) 0) 0 = [0] ∧
     ((reHighlightDirtyBlocks cfgStd docTitle 10
        { states := [-1, -1], fmts := fmtsStd } [0] []).2.2).count 0 = 1) :=
  ⟨by decide, c8_dirty_queue_amended cfgStd docTitle 10
    { states := [-1, -1], fmts := fmtsStd } 0 [0] 0 (by decide)⟩

theorem c10_masked_format_mutation_witness :
    qStarts ("```".toList) (mkCtx docC3 [-1, -1, -1] 0).text = true ∧
    ((highlightBlockFn cfgStd fmtsStd (mkCtx docC3 [-1, -1, -1] 0)).formats =
        codeBlockUpdateMasked fmtsStd ∧
     (highlightBlockFn cfgStd fmtsStd (mkCtx docC3 [-1, -1, -1] 0)).formats
        HighlighterState.MaskedSyntax =
       { fmtsStd HighlighterState.MaskedSyntax with
         fontPointSize := (fmtsStd HighlighterState.CodeBlock).fontPointSize } ∧
     ∀ s : Int, s ≠ HighlighterState.MaskedSyntax →
       (highlightBlockFn cfgStd fmtsStd (mkCtx docC3 [-1, -1, -1] 0)).formats s =
         fmtsStd s) :=
  ⟨by decide, (c10_masked_format_mutation cfgStd fmtsStd
    (mkCtx docC3 [-1, -1, -1] 0)).1 (by decide)⟩

/-- C1 counterexample: for the line consisting of a hash, a space and the
word Title, the space at index 1 is painted with the H1 foreground, not
the masked-syntax gray, so the masked span is the hash alone and the H1
span includes the separating space. -/
theorem c1_atx_counterexample :
    (highlightBlockFn cfgStd fmtsStd ctxAtx).state = HighlighterState.H1 ∧
    ((highlightBlockFn cfgStd fmtsStd ctxAtx).paint.map (fun f => f.foreground)) =
      some (⟨204, 204, 204⟩ : QColor) :: List.replicate 6 (some ⟨0, 49, 110⟩) ∧
    (some (⟨204, 204, 204⟩ : QColor) : Option QColor) ≠ some ⟨0, 49, 110⟩ :=
  ⟨by decide, by decide, by decide⟩

/-- C2 counterexample: for a document whose first line is an ATX level-two
heading and whose second line is an equals-sign underline, draining the
queue holding block 1 re-marks block 0, whose reclassification yields H2
with a masked hash prefix, not a full-text H1 span. -/
theorem c2_setext_counterexample :
    (reHighlightDirtyBlocks cfgStd docH2 10
      { states := [-1, -1], fmts := fmtsStd } [1] []).2.2 = [1, 0] ∧
    (reHighlightDirtyBlocks cfgStd docH2 10
      { states := [-1, -1], fmts := fmtsStd } [1] []).1.states =
      [HighlighterState.H2, HighlighterState.HeadlineEnd] ∧
    HighlighterState.H2 ≠ HighlighterState.H1 ∧
    ((highlightBlockFn cfgStd fmtsStd
        (mkCtx docH2 [-1, HighlighterState.HeadlineEnd] 0)).paint.map
      (fun f => f.foreground)) = [some ⟨204, 204, 204⟩, some ⟨204, 204, 204⟩,
        some ⟨0, 49, 110⟩, some ⟨0, 49, 110⟩] :=
  ⟨by decide, by decide, by decide, by decide⟩

/-- C5 counterexample: when only one character follows the opening quote
(line text: int x = "u), the string branch aborts without painting, so no
character of the line gets the string-literal green foreground. -/
theorem c5_short_tail_counterexample :
    ("int x = \"u".toList).get? 8 = some '"' ∧
    (((highlightSyntax fmtsStd HighlighterState.CodeCpp ("int x = \"u".toList)
      (List.replicate 10 {})).paint).all fun f => f.foreground ≠ some qDarkGreen) = true :=
  ⟨by decide, by decide⟩

/-- C8 counterexample: with dirty queue holding blocks 0 and 1 over a
plain line followed by an equals-sign underline, block 0 is processed,
block 1 re-enqueues it into the same drain, and it is processed a second
time: the drain log is [0, 1, 0]. -/
theorem c8_double_processing_counterexample :
    (reHighlightDirtyBlocks cfgStd docTitle 10
      { states := [-1, -1], fmts := fmtsStd } [0, 1] []).2.2 = [0, 1, 0] ∧
    List.count 0 [0, 1, 0] = 2 :=
  ⟨by decide, by decide⟩
